import Mathlib

/-!
Verification development for the myfence-blog-poster publication pipeline.

The definitions below are a shallow embedding of the pipeline code:

* `src/lib/utils.ts` — `sanitizeMdxBody`, `extractContentFromJsonBlock`
  (Content Sanitizer).  Strings are modelled as `List Char`; the JavaScript
  regular expressions used there are simple enough to be translated into
  first-order list functions, mirroring the engine's leftmost / greedy /
  backtracking behaviour where it is observable.
* `src/lib/gemini.ts` — `generateBlogPost` (endpoint fallback loop and
  response normalisation) and `investigateTopic` (Generation Client).
  Network I/O and `JSON.parse` of the backend's free-form response are
  modelled as oracle parameters; everything the repository's own code does
  with their results is embedded faithfully.
* the `claim_next_approved_topic` SQL function (Topic Claim Coordinator):
  the single atomic `UPDATE ... WHERE id = (SELECT ... FOR UPDATE SKIP
  LOCKED)` statement is modelled as one atomic step on the store, so a set
  of concurrent callers is modelled by an arbitrary serialisation of their
  atomic steps.
* `src/lib/publish-scheduled.ts` — `publishScheduledDrafts` (Publication
  Committer / publish flow).
* the cron write route (`GET /api/cron/write-blogs`, the snapshot that
  claims topics via `claim_next_approved_topic`) — the Scheduler
  Orchestrator, with the datastore modelled as an explicit topic list and
  the generation / draft-save / publish outcomes as oracle parameters.
-/

/-- Whitespace test matching the JavaScript `\s` character class and
`String.prototype.trim` on the ASCII range (space, tab, newline, carriage
return, vertical tab, form feed), as used throughout `src/lib/utils.ts`. -/
def isWsChar (c : Char) : Bool :=
  c = ' ' || c = '\t' || c = '\n' || c = '\r' || c = '\x0b' || c = '\x0c'

/-- Remove trailing whitespace characters (right half of JS `trim`). -/
def trimRight : List Char → List Char
  | [] => []
  | c :: rest =>
    match trimRight rest with
    | [] => if isWsChar c then [] else [c]
    | x :: xs => c :: x :: xs

/-- JS `String.prototype.trim`: drop leading and trailing whitespace. -/
def jsTrim (l : List Char) : List Char :=
  trimRight (l.dropWhile isWsChar)

/-- Split a character list at `'\n'`, JS `content.split("\n")`.
Always returns at least one (possibly empty) line. -/
def splitLines : List Char → List (List Char)
  | [] => [[]]
  | c :: rest =>
    if c = '\n' then [] :: splitLines rest
    else
      match splitLines rest with
      | [] => [[c]]
      | h :: t => (c :: h) :: t

/-- Join lines with `'\n'`, JS `lines.join("\n")`. -/
def joinLines : List (List Char) → List Char
  | [] => []
  | [l] => l
  | l :: ls => l ++ '\n' :: joinLines ls

/-- Match a literal prefix, returning the remainder after it. -/
def dropLit : List Char → List Char → Option (List Char)
  | [], l => some l
  | _ :: _, [] => none
  | p :: ps, c :: cs => if c = p then dropLit ps cs else none

/-- The scalar-metadata key words of the line filter in `sanitizeMdxBody`:
`/^(layout|showArticleSummary|imageCaption|featuredImage)\s*[:=]/`. -/
def metaWords : List (List Char) :=
  ["layout".data, "showArticleSummary".data, "imageCaption".data, "featuredImage".data]

/-- Test for `/^(layout|showArticleSummary|imageCaption|featuredImage)\s*[:=]/`
on a (trimmed) line: one of the key words, then optional whitespace, then
`:` or `=`.  (Since `:` and `=` are not whitespace, the greedy `\s*` with
backtracking is equivalent to skipping the maximal whitespace run.) -/
def metaPrefix (t : List Char) : Bool :=
  metaWords.any fun w =>
    match dropLit w t with
    | none => false
    | some r =>
      match r.dropWhile isWsChar with
      | [] => false
      | c :: _ => c = ':' || c = '='

/-- Test for `/^!\s*[^[\s]/` on a (trimmed) line: a `!` followed, after
optional whitespace, by a character that is neither `[` nor whitespace.
(Equivalent, after backtracking, to: skip the maximal whitespace run after
`!`; some character must remain and it must not be `[`.) -/
def bangNoBracket : List Char → Bool
  | '!' :: r =>
    match r.dropWhile isWsChar with
    | [] => false
    | c :: _ => decide (c ≠ '[')
  | _ => false

/-- The line predicate of the `.filter` in `sanitizeMdxBody`: keep blank
lines, drop leaked scalar-metadata lines and malformed image lines. -/
def keepLine (line : List Char) : Bool :=
  let t := jsTrim line
  if t.isEmpty then true
  else if metaPrefix t then false
  else if bangNoBracket t then false
  else true

/-- Worker for `\n{3,}` → `"\n\n"`: `pending` counts the newline run read
so far; a finished run of `n` newlines is emitted as `min n 2` newlines. -/
def collapseGo (pending : Nat) : List Char → List Char
  | [] => List.replicate (min pending 2) '\n'
  | c :: rest =>
    if c = '\n' then collapseGo (pending + 1) rest
    else List.replicate (min pending 2) '\n' ++ c :: collapseGo 0 rest

/-- JS `.replace(/\n{3,}/g, "\n\n")`: every maximal run of three or more
newlines becomes exactly two newlines; shorter runs are unchanged. -/
def collapseNl (l : List Char) : List Char := collapseGo 0 l

/-- Greedy-with-backtracking match of the tail `\s+[^\n]+\n*` of the
leading-H1 regex `^\s*#\s+[^\n]+\n*` against `r` (the text after `#`).
Returns the remainder after the matched part, or `none` if no match.

The JS engine first takes the maximal whitespace run `w` for `\s+`.  If a
(necessarily non-whitespace, hence non-newline) character follows, `[^\n]+`
takes the maximal non-newline run and `\n*` the following newline run.  If
`w` runs to the end of the string, the engine backtracks `\s+` until
`[^\n]+` can consume a non-newline whitespace character, which succeeds
(consuming everything) exactly when `w` contains some non-newline
character. -/
def h1TailMatch (r : List Char) : Option (List Char) :=
  let w := r.takeWhile isWsChar
  let rest := r.dropWhile isWsChar
  if w.isEmpty then none
  else if rest.isEmpty then
    if w.all (· = '\n') then none else some []
  else
    some ((rest.dropWhile (· ≠ '\n')).dropWhile (· = '\n'))

/-- JS `body.replace(/^\s*#\s+[^\n]+\n*/, "")`: strip a leading level-1
heading line (the duplicate-title defect), `sanitizeMdxBody` step 2. -/
def stripH1 (l : List Char) : List Char :=
  match l.dropWhile isWsChar with
  | '#' :: r =>
    match h1TailMatch r with
    | some rem => rem
    | none => l
  | _ => l

/-- Global replacement of the two-character sequence `a b` by `r`
(leftmost, non-overlapping), used for `.replace(/\\n/g, "\n")` and
`.replace(/\\"/g, '"')`. -/
def replacePair (a b r : Char) : List Char → List Char
  | [] => []
  | [c] => [c]
  | x :: y :: rest =>
    if x = a && y = b then r :: replacePair a b r rest
    else x :: replacePair a b r (y :: rest)

/-- Greedy match of the capture group `((?:[^"\\]|\\.)*)` of the
`"content"` regex: consume escaped pairs and characters other than `"` and
`\` until a quote, a lone trailing backslash, or the end of input. -/
def jsonStrCapture : List Char → List Char
  | [] => []
  | '\\' :: c :: rest => '\\' :: c :: jsonStrCapture rest
  | c :: rest => if c = '"' || c = '\\' then [] else c :: jsonStrCapture rest

/-- Try to match `"content"\s*:\s*"` at the head of `l`; on success return
the greedy capture of the following string body.  (The remainder of the
regex, `"?\s*[\s\S]*`, matches unconditionally.) -/
def matchContentAt (l : List Char) : Option (List Char) :=
  match dropLit "\"content\"".data l with
  | none => none
  | some r =>
    match r.dropWhile isWsChar with
    | ':' :: r2 =>
      match r2.dropWhile isWsChar with
      | '"' :: r3 => some (jsonStrCapture r3)
      | _ => none
    | _ => none

/-- Leftmost match of `"content"\s*:\s*"((?:[^"\\]|\\.)*)...` in `l`
(JS `String.prototype.match` scans start positions left to right). -/
def findContent : List Char → Option (List Char)
  | [] => none
  | c :: rest =>
    match matchContentAt (c :: rest) with
    | some cap => some cap
    | none => findContent rest

/-- JS `inner.replace(/\s*```\s*$/, "")`: remove a trailing code fence
together with the whitespace around it, if the string ends in one. -/
def stripTrailingFence (l : List Char) : List Char :=
  let t := trimRight l
  if ("```".data.reverse).isPrefixOf t.reverse then
    trimRight (t.take (t.length - 3))
  else l

/-- `extractContentFromJsonBlock` from `src/lib/utils.ts`: if the body is
(or starts as) a ```` ```json ````/`{"`-shaped block with a `"content"`
field, extract the inner markdown (unescaping `\n` and `\"`, dropping a
trailing fence); `none` when the input is not envelope-shaped, has no
`content` field, or the extracted text is empty. -/
def extractContentFromJsonBlock (content : List Char) : Option (List Char) :=
  let trimmed := jsTrim content
  if !(("```".data).isPrefixOf trimmed || ("\x7b\"".data).isPrefixOf trimmed) then none
  else
    match findContent trimmed with
    | none => none
    | some cap =>
      let inner := jsTrim (replacePair '\\' '"' '"' (replacePair '\\' 'n' '\n' cap))
      let inner2 := jsTrim (stripTrailingFence inner)
      if inner2.isEmpty then none else some inner2

/-- The unwrap stage of `sanitizeMdxBody`:
`const extracted = extractContentFromJsonBlock(body); if (extracted) body = extracted;`. -/
def unwrapJson (l : List Char) : List Char :=
  match extractContentFromJsonBlock l with
  | some e => e
  | none => l

/-- The line-filter stage of `sanitizeMdxBody`:
`body.split("\n").filter(...).join("\n")`. -/
def filterStep (l : List Char) : List Char :=
  joinLines ((splitLines l).filter keepLine)

/-- The final whitespace-normalisation of `sanitizeMdxBody`:
`.replace(/\n{3,}/g, "\n\n").trim()` applied after the line filter. -/
def normCore (l : List Char) : List Char :=
  jsTrim (collapseNl (filterStep l))

/-- `sanitizeMdxBody` from `src/lib/utils.ts` (the current snapshot, with
JSON-unwrap and leading-H1 strip), on character lists.  The JS guard
`if (!content || typeof content !== "string") return content;` reduces,
for strings, to returning empty input unchanged. -/
def sanitizeMdxBody (l : List Char) : List Char :=
  if l.isEmpty then l
  else normCore (stripH1 (unwrapJson l))

/-- `sanitizeMdxBody` on `String`. -/
def sanitizeMdxBodyS (s : String) : String :=
  ⟨sanitizeMdxBody s.data⟩

/-! ## Topic Claim Coordinator (`claim_next_approved_topic`, SQL) -/

/-- Topic lifecycle status, per the `blog_topics_status_check` constraint. -/
inductive TopicStatus
  | preparing | ready | inProgress | completed
deriving DecidableEq, Repr

/-- A row of `blog_topics` (the columns the pipeline reads or writes).
`created_at` and `updated_at` are abstract timestamps. -/
structure Topic where
  id : Nat
  priority : Option Int
  created_at : Nat
  status : TopicStatus
  progress_status : Option String
  updated_at : Nat
deriving DecidableEq, Repr

/-- Strict "comes first" relation of
`ORDER BY priority DESC NULLS LAST, created_at ASC`. -/
def beats (a b : Topic) : Bool :=
  match a.priority, b.priority with
  | some x, some y =>
      decide (y < x) || (decide (x = y) && decide (a.created_at < b.created_at))
  | some _, none => true
  | none, some _ => false
  | none, none => decide (a.created_at < b.created_at)

/-- Accumulator step selecting the first-encountered order-minimal row. -/
def pickBetter (acc : Option Topic) (t : Topic) : Option Topic :=
  match acc with
  | none => some t
  | some b => if beats t b then some t else some b

/-- The subselect of `claim_next_approved_topic`:
`SELECT id FROM blog_topics WHERE status = 'ready' ORDER BY priority DESC
NULLS LAST, created_at ASC LIMIT 1` (ties resolved to the first row in
store order, one of the serialisations SQL allows). -/
def selectReady (ts : List Topic) : Option Topic :=
  (ts.filter fun t => decide (t.status = TopicStatus.ready)).foldl pickBetter none

/-- The `SET status = 'in_progress', updated_at = NOW()` part of the claim. -/
def claimTopicUpdate (now : Nat) (t : Topic) : Topic :=
  { t with status := TopicStatus.inProgress, updated_at := now }

/-- The `claim_next_approved_topic` SQL function as one atomic step on the
store: select the first `ready` topic in `priority DESC NULLS LAST,
created_at ASC` order, flip it to `in_progress` stamping `updated_at`, and
return the updated row (`RETURNING *`).  `FOR UPDATE SKIP LOCKED` makes
concurrent executions serialise, so N concurrent callers are modelled as N
successive applications of this step. -/
def claim_next_approved_topic (now : Nat) (ts : List Topic) :
    Option Topic × List Topic :=
  match selectReady ts with
  | none => (none, ts)
  | some t =>
    (some (claimTopicUpdate now t),
     ts.map fun u => if u.id = t.id then claimTopicUpdate now u else u)

/-- A serialisation of `n` concurrent claim calls: the results in
serialisation order, and the final store. -/
def claimRuns (now : Nat) : Nat → List Topic → List (Option Topic) × List Topic
  | 0, ts => ([], ts)
  | n + 1, ts =>
    let step := claim_next_approved_topic now ts
    let rest := claimRuns now n step.2
    (step.1 :: rest.1, rest.2)

/-- The ids of the calls that actually received a topic. -/
def someIds (rs : List (Option Topic)) : List Nat :=
  rs.filterMap fun r => r.map Topic.id

/-! ## Generation Client (`src/lib/gemini.ts`) -/

/-- Outcome of one `fetch` against one endpoint of the fallback list:
a success response, a non-success HTTP response (with the error message the
code extracts from its body), or a thrown network error (with the
exception's message). -/
inductive EndpointOutcome
  | ok (body : String)
  | httpErr (msg : String)
  | netErr (msg : String)
deriving DecidableEq, Repr

/-- Whether an attempt outcome is a success response. -/
def outcomeIsOk : EndpointOutcome → Bool
  | .ok _ => true
  | _ => false

/-- The error message `generateBlogPost` stores in `lastError` for a failed
attempt. -/
def errText : EndpointOutcome → String
  | .ok _ => ""
  | .httpErr m => "Gemini API error: " ++ m
  | .netErr m => "Failed to fetch: " ++ m

/-- The endpoint-fallback loop of `generateBlogPost`: walk the endpoint
list in order, remember the last attempt's error, break on the first
success; after the loop, throw the last error if no attempt succeeded.
Returns how many endpoints were contacted together with the outcome. -/
def fallbackFetch : List EndpointOutcome → Option String → Nat → Nat × Except String String
  | [], lastErr, attempts =>
    (attempts,
     .error (match lastErr with
             | some e => e
             | none => "All Gemini API endpoints failed"))
  | o :: rest, _lastErr, attempts =>
    match o with
    | .ok body => (attempts + 1, .ok body)
    | e => fallbackFetch rest (some (errText e)) (attempts + 1)

/-- Entry point of the fallback loop (`lastError = null`, no attempts yet). -/
def generateBlogPostFetch (outs : List EndpointOutcome) : Nat × Except String String :=
  fallbackFetch outs none 0

/-- A JavaScript value read off a parsed JSON object: a string or some
non-string value (the `typeof content !== "string"` check is the only
inspection the code performs). -/
inductive JVal
  | str (s : String)
  | nonstr
deriving DecidableEq, Repr

/-- The fields `generateBlogPost` reads from the parsed response object;
`none` models an absent (`undefined`/`null`) field. -/
structure GeminiParsed where
  title : Option String
  content : Option JVal
  body : Option JVal
  metaDescription : Option String
  category : Option String
  readTime : Option String
  featuredImage : Option String
  imageCaption : Option String
deriving DecidableEq, Repr

/-- The result record returned by `generateBlogPost` (fields used by the
pipeline). -/
structure ArticleResult where
  title : String
  content : String
  metaDescription : String
  category : Option String
  readTime : String
  featuredImage : Option String
  imageCaption : Option String
deriving DecidableEq, Repr

/-- JS `a || b` for an optional string: the default steps in when the field
is absent or the empty string (falsy). -/
def jsOrStr (o : Option String) (d : String) : String :=
  match o with
  | some s => if s = "" then d else s
  | none => d

/-- JS `parsed.content ?? parsed.body ?? ""`. -/
def contentRaw (p : GeminiParsed) : JVal :=
  match p.content with
  | some v => v
  | none =>
    match p.body with
    | some v => v
    | none => JVal.str ""

/-- JS `String.prototype.trimStart`. -/
def trimStart (l : List Char) : List Char := l.dropWhile isWsChar

/-- The retry placeholder body substituted when raw JSON would otherwise be
shown as article content. -/
def retryPlaceholder (t : String) : String :=
  "# " ++ t ++ "\n\nArticle content could not be extracted. Please retry."

/-- Result normalisation of `generateBlogPost` after a successful
`JSON.parse` (src/lib/gemini.ts, the `try` branch): pick
`parsed.content ?? parsed.body ?? ""`; a non-string or
whitespace-only content is replaced by the whole raw response text; a
content that then still starts (after leading whitespace) with `{` is
replaced by the retry placeholder; remaining fields get their
policy defaults. -/
def normalizeParsed (p : GeminiParsed) (generatedText topic : String) : ArticleResult :=
  let content1 : String :=
    match contentRaw p with
    | .nonstr => generatedText
    | .str s => if (jsTrim s.data).isEmpty then generatedText else s
  let content2 : String :=
    if ("\x7b".data).isPrefixOf (trimStart content1.data) then
      retryPlaceholder (jsOrStr p.title topic)
    else content1
  { title := jsOrStr p.title topic
    content := content2
    metaDescription := jsOrStr p.metaDescription ("Learn about " ++ topic.toLower)
    category := p.category
    readTime := jsOrStr p.readTime "5 min read"
    featuredImage := p.featuredImage
    imageCaption := p.imageCaption }

/-! ## `investigateTopic` (`src/lib/gemini.ts`) -/

/-- Fields `investigateTopic` reads from a parsed response object (after
JS `String(...)` / `Array.isArray` coercion; `none` = absent field). -/
structure IParsed where
  suggestedTitle : Option String
  description : Option String
  keywords : Option (List String)
deriving DecidableEq, Repr

/-- Return type of `investigateTopic`. -/
structure InvestigateTopicResult where
  suggestedTitle : String
  description : String
  keywords : List String
deriving DecidableEq, Repr

/-- JS `s.slice(0, 70)`. -/
def jsSlice70 (s : String) : String := ⟨s.data.take 70⟩

/-- Case-insensitive character comparison (the regex `i` flag). -/
def charLowerEq (c d : Char) : Bool := c.toLower = d.toLower

/-- Match a literal prefix case-insensitively, returning the remainder. -/
def dropLitCI : List Char → List Char → Option (List Char)
  | [], l => some l
  | _ :: _, [] => none
  | p :: ps, c :: cs => if charLowerEq c p then dropLitCI ps cs else none

/-- JS `.replace(/^```json?\n?/i, "")` — note the pattern is (literally)
three backticks, `jso`, an optional `n`, an optional newline. -/
def stripLeadFenceJson (l : List Char) : List Char :=
  match dropLitCI "```jso".data l with
  | none => l
  | some r =>
    let r1 := match r with
              | c :: rest => if charLowerEq c 'n' then rest else c :: rest
              | [] => []
    match r1 with
    | '\n' :: rest2 => rest2
    | other => other

/-- JS `.replace(/\n?```\s*$/, "")`: remove a trailing code fence (plus the
whitespace after it and one optional newline before it). -/
def stripTrailFenceNl (l : List Char) : List Char :=
  let t := trimRight l
  if ("```".data.reverse).isPrefixOf t.reverse then
    let u := t.take (t.length - 3)
    match u.reverse with
    | '\n' :: _ => u.take (u.length - 1)
    | _ => u
  else l

/-- JS `l.indexOf(c)` as an optional index. -/
def idxOfChar (c : Char) (l : List Char) : Option Nat := l.findIdx? (· = c)

/-- JS `l.lastIndexOf(c)` as an optional index. -/
def lastIdxOfChar (c : Char) (l : List Char) : Option Nat :=
  match idxOfChar c l.reverse with
  | none => none
  | some i => some (l.length - 1 - i)

/-- JS `l.slice(a, b)` for `0 ≤ a ≤ b`. -/
def jsSlice (l : List Char) (a b : Nat) : List Char := (l.take b).drop a

/-- The hard-coded fallback result of `investigateTopic` for an
unparseable response. -/
def investigateFallback (idea : String) : InvestigateTopicResult :=
  { suggestedTitle := jsSlice70 idea
    description := "AI research could not be parsed. You can edit the title and description below."
    keywords := [] }

/-- Build the result from a successfully parsed object:
`String(parsed.suggestedTitle ?? idea).slice(0, 70)` etc. -/
def investigateFromParsed (p : IParsed) (idea : String) : InvestigateTopicResult :=
  { suggestedTitle := jsSlice70 (match p.suggestedTitle with
                                 | some t => t
                                 | none => idea)
    description := (match p.description with
                    | some d => d
                    | none => "")
    keywords := (match p.keywords with
                 | some ks => ks
                 | none => []) }

/-- The parsing section of `investigateTopic` (`src/lib/gemini.ts`):
trim and strip code fences from the response text, try `JSON.parse`
(modelled by the oracle `parse`, a function of the text being parsed);
on failure try the substring between the first `{` and the last `}`;
otherwise return the fallback result. -/
def investigateTopic (parse : List Char → Option IParsed)
    (text idea : String) : InvestigateTopicResult :=
  let jsonText := jsTrim (stripTrailFenceNl (stripLeadFenceJson (jsTrim text.data)))
  match parse jsonText with
  | some p => investigateFromParsed p idea
  | none =>
    match idxOfChar '\x7b' jsonText, lastIdxOfChar '\x7d' jsonText with
    | some i, some j =>
      if i < j then
        match parse (jsSlice jsonText i (j + 1)) with
        | some p => investigateFromParsed p idea
        | none => investigateFallback idea
      else investigateFallback idea
    | _, _ => investigateFallback idea

/-! ## Publication Committer (`src/lib/publish-scheduled.ts`) -/

/-- Draft lifecycle status (`blog_drafts.status`). -/
inductive DraftStatus
  | draft | review | scheduled | published | failed
deriving DecidableEq, Repr

/-- A row of `blog_drafts` (the columns `publishScheduledDrafts` reads or
writes); `sd_layout`/`sd_showArticleSummary` are the two keys it reads from
`structured_data`. -/
structure Draft where
  id : Nat
  topic_id : Option Nat
  slug : String
  title : String
  body_mdx : String
  meta_description : String
  category : String
  read_time : String
  featured_image : Option String
  sd_layout : Option String
  sd_showArticleSummary : Option Bool
  status : DraftStatus
  scheduled_publish_at : Option Nat
  published_at : Option Nat
  github_pr_url : Option String
deriving DecidableEq, Repr

/-- JS `.replace(/"/g, '\\"')`. -/
def escQuotes (s : String) : String :=
  ⟨s.data.flatMap fun c => if c = '"' then ['\\', '"'] else [c]⟩

/-- The front-matter block `publishScheduledDrafts` assembles (the
month-name `publishDate` and ISO `today` strings are inputs, as they come
from the clock). -/
def frontmatterFor (d : Draft) (keywords : Option String) (publishDate today : String) : String :=
  let l1 := ["---",
    "title: \"" ++ escQuotes d.title ++ "\"",
    "description: \"" ++ escQuotes d.meta_description ++ "\"",
    "slug: \"" ++ d.slug ++ "\"",
    "category: \"" ++ d.category ++ "\""]
  let l2 := match d.featured_image with
    | some img => if img = "" then [] else ["image: \"" ++ escQuotes img ++ "\""]
    | none => []
  let l3 := ["readTime: \"" ++ (if d.read_time = "" then "5 min read" else d.read_time) ++ "\"",
    "publishDate: \"" ++ publishDate ++ "\"",
    "datePublished: \"" ++ today ++ "\"",
    "dateModified: \"" ++ today ++ "\""]
  let l4 := match keywords with
    | some k => ["keywords: \"" ++ escQuotes k ++ "\""]
    | none => []
  let l5 := match d.sd_layout with
    | some la => if la = "" then [] else ["layout: \"" ++ la ++ "\""]
    | none => []
  let l6 := match d.sd_showArticleSummary with
    | some b => ["showArticleSummary: " ++ (if b then "true" else "false")]
    | none => []
  String.intercalate "\n" (l1 ++ l2 ++ l3 ++ l4 ++ l5 ++ l6 ++ ["---"])

/-- The summary record `publishScheduledDrafts` returns. -/
structure PublishResult where
  published : Nat
  message : String
  commitUrl : Option String
  draftId : Option Nat
  slug : Option String
deriving DecidableEq, Repr

/-- Everything observable about one `publishScheduledDrafts` run: the value
returned or error thrown, the draft row after the run (`none` when no
draft was fetched), and whether the commit store was contacted. -/
structure PublishRun where
  result : Except String PublishResult
  draftAfter : Option Draft
  commitCalled : Bool
deriving Repr

/-- `publishScheduledDrafts` from `src/lib/publish-scheduled.ts`.
`fetched` is the outcome of the datastore query for the earliest due
scheduled draft (with its topic's keywords joined in); `commit` is the
outcome `commitBlogDirectly` would produce (the returned `commitUrl` on
success, the thrown error otherwise); `now` stamps `published_at`. -/
def publishScheduledDrafts (fetched : Except String (List (Draft × Option (List String))))
    (commit : Except String String) (now : Nat) (publishDate today : String) : PublishRun :=
  match fetched with
  | .error m =>
    { result := .error ("Failed to fetch scheduled drafts: " ++ m)
      draftAfter := none, commitCalled := false }
  | .ok [] =>
    { result := .ok { published := 0, message := "No scheduled drafts ready to publish",
                      commitUrl := none, draftId := none, slug := none }
      draftAfter := none, commitCalled := false }
  | .ok ((draft, kws) :: _) =>
    if draft.title = "" || draft.body_mdx = "" || draft.slug = "" then
      { result := .error ("Draft \"" ++ (if draft.title = "" then toString draft.id else draft.title) ++
                          "\" is missing required fields (title, body, or slug)")
        draftAfter := some { draft with status := DraftStatus.failed }
        commitCalled := false }
    else
      let keywords : Option String :=
        match kws with
        | some ks => if ks.isEmpty then none else some (String.intercalate ", " ks)
        | none => none
      let fm := frontmatterFor draft keywords publishDate today
      let body := sanitizeMdxBodyS draft.body_mdx
      let _mdx := fm ++ "\n\n" ++ body
      match commit with
      | .error m =>
        { result := .error m, draftAfter := some draft, commitCalled := true }
      | .ok commitUrl =>
        let res : PublishResult :=
          { published := 1, message := "Published: " ++ draft.title,
            commitUrl := some commitUrl, draftId := some draft.id,
            slug := some draft.slug }
        let updated : Draft :=
          { draft with status := DraftStatus.published,
                       published_at := some now,
                       github_pr_url := some commitUrl }
        { result := .ok res, draftAfter := some updated, commitCalled := true }

/-! ## Scheduler Orchestrator (cron write route, the snapshot calling
`claim_next_approved_topic` and `publishScheduledDrafts`) -/

/-- Slug character test after lowercasing: `[a-z0-9]`. -/
def isSlugChar (c : Char) : Bool :=
  ('a' ≤ c && c ≤ 'z') || ('0' ≤ c && c ≤ '9')

/-- Worker for `.replace(/[^a-z0-9]+/g, "-")`: each maximal run of
non-slug characters becomes a single hyphen. -/
def slugGo (prevHyphen : Bool) : List Char → List Char
  | [] => []
  | c :: rest =>
    if isSlugChar c then c :: slugGo false rest
    else if prevHyphen then slugGo true rest
    else '-' :: slugGo true rest

/-- Slug derivation of the cron write route:
`title.toLowerCase().replace(/[^a-z0-9]+/g, "-").replace(/^-+|-+$/g, "")`. -/
def slugify (title : String) : String :=
  let hy := slugGo false title.toLower.data
  ⟨((hy.dropWhile (· = '-')).reverse.dropWhile (· = '-')).reverse⟩

/-- The oracle outcomes of the I/O a cron write invocation performs beyond
the topic store: the claim RPC erroring (`claimFails`), the
`generateBlogPost` call, the draft lookup/upsert by slug, and the
`publishScheduledDrafts` call (already caught inside the route). -/
structure CronEnv where
  claimFails : Option String
  generate : Except String ArticleResult
  existingDraftId : Option Nat
  draftSave : Except String Nat
  publish : Except String PublishResult

/-- The progress markers the route writes into `progress_status`. -/
def progressResearching : String := "Researching topic and gathering information..."

/-- Progress marker written immediately before calling `generateBlogPost`. -/
def progressGenerating : String := "Generating blog content with AI..."

/-- Progress marker written after generation, before the draft upsert. -/
def progressSaving : String := "Saving draft to database..."

/-- `UPDATE blog_topics SET status = st WHERE id = id₀`. -/
def updateTopicStatus (ts : List Topic) (id₀ : Nat) (st : TopicStatus) : List Topic :=
  ts.map fun t => if t.id = id₀ then { t with status := st } else t

/-- `UPDATE blog_topics SET progress_status = p WHERE id = id₀`. -/
def updateTopicProgress (ts : List Topic) (id₀ : Nat) (p : String) : List Topic :=
  ts.map fun t => if t.id = id₀ then { t with progress_status := some p } else t

/-- Everything observable about one cron write invocation: the topic store
after the run, the JSON response fields, and whether the publish flow was
invoked. -/
structure CronRun where
  storeAfter : List Topic
  success : Bool
  errorMsg : Option String
  processed : Nat
  draftId : Option Nat
  slugVal : Option String
  publishCalled : Bool
  scheduledPublish : Option PublishResult
deriving Repr

/-- The `catch` block of the route: if a topic id was recorded, reset that
topic's `status` to `ready` (that update is the only write the handler
performs); then still try the publish flow; respond with the error. -/
def cronCatch (store : List Topic) (topicId : Option Nat) (msg : String)
    (env : CronEnv) : CronRun :=
  let store1 := match topicId with
    | some id₀ => updateTopicStatus store id₀ TopicStatus.ready
    | none => store
  let sp := match env.publish with
    | .ok r => some r
    | .error _ => none
  { storeAfter := store1, success := false, errorMsg := some msg, processed := 0,
    draftId := none, slugVal := none, publishCalled := true, scheduledPublish := sp }

/-- The cron write route `GET` handler (the current snapshot: claim via
`claim_next_approved_topic`, generate, sanitise, upsert the draft by slug
as `status = "draft"`, mark the topic `completed`; on any throw reset the
claimed topic to `ready`; in every path run `publishScheduledDrafts`,
catching its errors).  The authorisation check and the response HTTP
status are outside the modelled behaviour. -/
def cronWriteBlogs (env : CronEnv) (now : Nat) (store : List Topic) : CronRun :=
  match env.claimFails with
  | some m => cronCatch store none ("Failed to claim topic: " ++ m) env
  | none =>
    let step := claim_next_approved_topic now store
    match step.1 with
    | none =>
      let sp := match env.publish with
        | .ok r => some r
        | .error _ => none
      { storeAfter := step.2, success := true, errorMsg := none, processed := 0,
        draftId := none, slugVal := none, publishCalled := true, scheduledPublish := sp }
    | some topic =>
      let store1 := updateTopicProgress step.2 topic.id progressResearching
      let store2 := updateTopicProgress store1 topic.id progressGenerating
      match env.generate with
      | .error m => cronCatch store2 (some topic.id) ("Gemini API failed: " ++ m) env
      | .ok blogPost =>
        let store3 := updateTopicProgress store2 topic.id progressSaving
        let slug := slugify blogPost.title
        match env.draftSave with
        | .error m =>
          cronCatch store3 (some topic.id)
            ((match env.existingDraftId with
              | some _ => "Failed to update draft: "
              | none => "Failed to create draft: ") ++ m) env
        | .ok draftId =>
          let store4 := updateTopicStatus store3 topic.id TopicStatus.completed
          let sp := match env.publish with
            | .ok r => some r
            | .error _ => none
          { storeAfter := store4, success := true, errorMsg := none, processed := 1,
            draftId := some draftId, slugVal := some slug, publishCalled := true,
            scheduledPublish := sp }

/-- Look up a topic row by id. -/
def findTopic (ts : List Topic) (id₀ : Nat) : Option Topic :=
  ts.find? fun t => decide (t.id = id₀)

/-! ## Demo fixtures used by concrete scenarios -/

/-- A ready topic with high priority (demo store row). -/
def demoTopicA : Topic :=
  { id := 1, priority := some 5, created_at := 10, status := TopicStatus.ready,
    progress_status := none, updated_at := 0 }

/-- A ready topic with lower priority (demo store row). -/
def demoTopicB : Topic :=
  { id := 2, priority := some 3, created_at := 11, status := TopicStatus.ready,
    progress_status := none, updated_at := 0 }

/-- A cron environment whose generation call throws `XERR` while the
publish flow would succeed with a no-op result. -/
def envGenFail : CronEnv :=
  { claimFails := none, generate := .error "XERR", existingDraftId := none,
    draftSave := .ok 9,
    publish := .ok { published := 0, message := "No scheduled drafts ready to publish",
                     commitUrl := none, draftId := none, slug := none } }

/-- A generated article (demo fixture). -/
def demoArticle : ArticleResult :=
  { title := "T", content := "body", metaDescription := "d", category := none,
    readTime := "5 min read", featuredImage := none, imageCaption := none }

/-- A cron environment whose generation succeeds but whose draft upsert
throws `DBERR` (no draft with the slug existed, so the create path was
taken), while the publish flow would succeed with a no-op result. -/
def envSaveFail : CronEnv :=
  { claimFails := none, generate := .ok demoArticle, existingDraftId := none,
    draftSave := .error "DBERR",
    publish := .ok { published := 0, message := "No scheduled drafts ready to publish",
                     commitUrl := none, draftId := none, slug := none } }

/-! ## Lemmas about the claim ordering -/

lemma beats_irrefl (a : Topic) : beats a a = false := by
  unfold beats
  rcases a.priority with _ | x <;> simp

lemma beats_trans {a b c : Topic} (hab : beats a b = true) (hbc : beats b c = true) :
    beats a c = true := by
  unfold beats at *
  rcases ha : a.priority with _ | x <;> rcases hb : b.priority with _ | y <;>
    rcases hc : c.priority with _ | z <;> simp_all <;> omega

lemma beats_total_chain {x b r : Topic} (hxb : beats x b = false) (hxr : beats x r = true) :
    beats b r = true := by
  unfold beats at *
  rcases h1 : x.priority with _ | px <;> rcases h2 : b.priority with _ | pb <;>
    rcases h3 : r.priority with _ | pr <;> simp_all <;> omega

lemma foldl_pickBetter_spec (l : List Topic) (acc : Option Topic) (t : Topic)
    (h : l.foldl pickBetter acc = some t) :
    (t ∈ l ∨ acc = some t) ∧ (∀ u ∈ l, beats u t = false) ∧
      (∀ b, acc = some b → beats b t = false) := by
  induction l generalizing acc with
  | nil =>
    simp only [List.foldl_nil] at h
    refine ⟨Or.inr h, by simp, ?_⟩
    intro b hb
    rw [hb] at h
    cases h
    exact beats_irrefl t
  | cons x xs ih =>
    simp only [List.foldl_cons] at h
    obtain ⟨hmem, hall, hacc⟩ := ih (pickBetter acc x) h
    have hx : beats x t = false := by
      cases hA : acc with
      | none =>
        exact hacc x (by simp [pickBetter, hA])
      | some b0 =>
        by_cases hxb : beats x b0 = true
        · exact hacc x (by simp [pickBetter, hA, hxb])
        · have hb0 : beats b0 t = false := hacc b0 (by simp [pickBetter, hA, hxb])
          by_contra hxt
          have hxt' : beats x t = true := by
            cases hqq : beats x t
            · exact absurd hqq hxt
            · rfl
          have : beats b0 t = true :=
            beats_total_chain (by cases hq : beats x b0 with
              | true => exact absurd hq hxb
              | false => rfl) hxt'
          rw [this] at hb0
          cases hb0
    refine ⟨?_, ?_, ?_⟩
    · rcases hmem with hm | hp
      · exact Or.inl (List.mem_cons_of_mem x hm)
      · cases hA : acc with
        | none =>
          rw [hA] at hp
          simp only [pickBetter] at hp
          cases hp
          exact Or.inl (List.mem_cons_self _ _)
        | some b0 =>
          rw [hA] at hp
          simp only [pickBetter] at hp
          by_cases hxb : beats x b0 = true
          · rw [if_pos hxb] at hp
            cases hp
            exact Or.inl (List.mem_cons_self _ _)
          · rw [if_neg hxb] at hp
            exact Or.inr (hA ▸ hp)
    · intro u hu
      rcases List.mem_cons.mp hu with rfl | hu'
      · exact hx
      · exact hall u hu'
    · intro b hb
      subst hb
      by_cases hxb : beats x b = true
      · have hxt : beats x t = false := hx
        by_contra hbt
        have hbt' : beats b t = true := by
          cases hq : beats b t
          · exact absurd hq hbt
          · rfl
        have : beats x t = true := beats_trans hxb hbt'
        rw [this] at hxt
        cases hxt
      · exact hacc b (by simp [pickBetter, hxb])

lemma selectReady_spec (ts : List Topic) (t : Topic) (h : selectReady ts = some t) :
    t ∈ ts ∧ t.status = TopicStatus.ready ∧
      ∀ u ∈ ts, u.status = TopicStatus.ready → beats u t = false := by
  unfold selectReady at h
  obtain ⟨hmem, hall, -⟩ := foldl_pickBetter_spec _ none t h
  have hmem' : t ∈ ts.filter fun t => decide (t.status = TopicStatus.ready) := by
    rcases hmem with hm | hp
    · exact hm
    · cases hp
  have hmf := List.mem_filter.mp hmem'
  refine ⟨hmf.1, by simpa using hmf.2, ?_⟩
  intro u hu hready
  exact hall u (List.mem_filter.mpr ⟨hu, by simp [hready]⟩)

lemma claim_step_spec (now : Nat) (ts : List Topic) (t : Topic)
    (h : (claim_next_approved_topic now ts).1 = some t) :
    ∃ orig ∈ ts, orig.status = TopicStatus.ready ∧ t = claimTopicUpdate now orig ∧
      (∀ u ∈ ts, u.status = TopicStatus.ready → beats u orig = false) ∧
      (∀ u ∈ (claim_next_approved_topic now ts).2, u.id = t.id →
        u.status = TopicStatus.inProgress) := by
  unfold claim_next_approved_topic at h ⊢
  cases hsel : selectReady ts with
  | none => rw [hsel] at h; cases h
  | some s =>
    rw [hsel] at h
    simp only [Option.some.injEq] at h
    obtain ⟨hmem, hready, hbest⟩ := selectReady_spec ts s hsel
    refine ⟨s, hmem, hready, h.symm, hbest, ?_⟩
    intro u hu hid
    obtain ⟨v, hv, huv⟩ := List.mem_map.mp hu
    by_cases hveq : v.id = s.id
    · rw [if_pos hveq] at huv
      rw [← huv]
      rfl
    · rw [if_neg hveq] at huv
      rw [← h] at hid
      rw [← huv] at hid
      exact absurd hid hveq

lemma claim_store_none (now : Nat) (ts : List Topic)
    (h : (claim_next_approved_topic now ts).1 = none) :
    (claim_next_approved_topic now ts).2 = ts := by
  unfold claim_next_approved_topic at *
  cases hsel : selectReady ts with
  | none => rfl
  | some s => rw [hsel] at h; cases h

lemma mem_claim_store (now : Nat) (ts : List Topic) (t : Topic) (u : Topic)
    (h : (claim_next_approved_topic now ts).1 = some t)
    (hu : u ∈ (claim_next_approved_topic now ts).2) :
    (u ∈ ts ∧ u.id ≠ t.id) ∨ u.status = TopicStatus.inProgress := by
  unfold claim_next_approved_topic at h hu
  cases hsel : selectReady ts with
  | none => rw [hsel] at h; cases h
  | some s =>
    rw [hsel] at h hu
    simp only [Option.some.injEq] at h
    simp only at hu
    obtain ⟨v, hv, huv⟩ := List.mem_map.mp hu
    by_cases hveq : v.id = s.id
    · rw [if_pos hveq] at huv
      right
      rw [← huv]
      rfl
    · rw [if_neg hveq] at huv
      left
      refine ⟨huv ▸ hv, ?_⟩
      rw [← huv, ← h]
      exact hveq

lemma claimRuns_ids_ready (now : Nat) (n : Nat) (ts : List Topic) :
    ∀ i ∈ someIds (claimRuns now n ts).1,
      ∃ u ∈ ts, u.id = i ∧ u.status = TopicStatus.ready := by
  induction n generalizing ts with
  | zero => simp [claimRuns, someIds]
  | succ n ih =>
    intro i hi
    simp only [claimRuns] at hi
    cases hstep : (claim_next_approved_topic now ts).1 with
    | none =>
      rw [hstep] at hi
      simp only [someIds, List.filterMap_cons, Option.map_none] at hi
      have := ih (claim_next_approved_topic now ts).2 i hi
      rwa [claim_store_none now ts hstep] at this
    | some t =>
      rw [hstep] at hi
      simp only [someIds, List.filterMap_cons, Option.map_some] at hi
      rcases List.mem_cons.mp hi with rfl | hi'
      · obtain ⟨orig, hmem, hready, heq, -, -⟩ := claim_step_spec now ts t hstep
        refine ⟨orig, hmem, ?_, hready⟩
        rw [heq]
        rfl
      · obtain ⟨v, hv, hvid, hvready⟩ := ih (claim_next_approved_topic now ts).2 i hi'
        rcases mem_claim_store now ts t v hstep hv with ⟨hvmem, -⟩ | hprog
        · exact ⟨v, hvmem, hvid, hvready⟩
        · rw [hvready] at hprog
          cases hprog

lemma claimRuns_ids_nodup (now : Nat) (n : Nat) (ts : List Topic) :
    (someIds (claimRuns now n ts).1).Nodup := by
  induction n generalizing ts with
  | zero => simp [claimRuns, someIds]
  | succ n ih =>
    simp only [claimRuns]
    cases hstep : (claim_next_approved_topic now ts).1 with
    | none =>
      simp only [someIds, List.filterMap_cons, Option.map_none]
      exact ih _
    | some t =>
      simp only [someIds, List.filterMap_cons, Option.map_some]
      refine List.nodup_cons.mpr ⟨?_, ih _⟩
      intro hmem
      obtain ⟨v, hv, hvid, hvready⟩ :=
        claimRuns_ids_ready now n (claim_next_approved_topic now ts).2 t.id hmem
      obtain ⟨-, -, -, -, -, hflip⟩ := claim_step_spec now ts t hstep
      have := hflip v hv hvid
      rw [hvready] at this
      cases this

/-- C1 — Topic claiming is exclusive.  The atomic claim step
(`claim_next_approved_topic`) returns only a topic that was `ready` in the
pre-state — never one already `in_progress` — and that topic is undominated
under `priority DESC NULLS LAST, created_at ASC` among the ready topics;
in the same step the row is flipped to `in_progress` in the store.  Across
any serialisation of concurrent calls (`claimRuns`), the calls that receive
a topic receive pairwise distinct topics; and in the concrete scenario of
2 ready topics and 5 concurrent calls, exactly the first two calls in
serialisation order receive (distinct) topics and the other three get
none. -/
theorem claim_exclusivity :
    (∀ (now : Nat) (ts : List Topic) (t : Topic),
        (claim_next_approved_topic now ts).1 = some t →
        ∃ orig ∈ ts, orig.status = TopicStatus.ready ∧ t = claimTopicUpdate now orig ∧
          (∀ u ∈ ts, u.status = TopicStatus.ready → beats u orig = false) ∧
          (∀ u ∈ (claim_next_approved_topic now ts).2, u.id = t.id →
            u.status = TopicStatus.inProgress))
    ∧ (∀ (now n : Nat) (ts : List Topic), (someIds (claimRuns now n ts).1).Nodup)
    ∧ (claimRuns 7 5 [demoTopicA, demoTopicB]).1 =
        [some (claimTopicUpdate 7 demoTopicA), some (claimTopicUpdate 7 demoTopicB),
         none, none, none] := by
  refine ⟨claim_step_spec, claimRuns_ids_nodup, ?_⟩
  decide

/-- Closed instance discharging the hypotheses of `claim_exclusivity`:
the claim step on the demo store returns the flipped high-priority topic,
which was ready, is undominated, and is `in_progress` in the post-state. -/
theorem claim_exclusivity_witness :
    ∃ orig ∈ [demoTopicA, demoTopicB], orig.status = TopicStatus.ready ∧
      claimTopicUpdate 7 demoTopicA = claimTopicUpdate 7 orig ∧
      (∀ u ∈ [demoTopicA, demoTopicB], u.status = TopicStatus.ready → beats u orig = false) ∧
      (∀ u ∈ (claim_next_approved_topic 7 [demoTopicA, demoTopicB]).2,
        u.id = (claimTopicUpdate 7 demoTopicA).id → u.status = TopicStatus.inProgress) :=
  claim_exclusivity.1 7 [demoTopicA, demoTopicB] (claimTopicUpdate 7 demoTopicA) (by decide)

/-- C4 — Flow isolation: whenever the write flow of a cron invocation
throws (the response carries an error), the publish flow was still invoked
within that same invocation, and a successful publish outcome is reported
in the response. -/
lemma cron_publishCalled (env : CronEnv) (now : Nat) (store : List Topic) :
    (cronWriteBlogs env now store).publishCalled = true := by
  unfold cronWriteBlogs
  cases hcf : env.claimFails with
  | some e => simp [cronCatch]
  | none =>
    cases hcl : (claim_next_approved_topic now store).1 with
    | none => simp [hcl]
    | some topic =>
      cases hg : env.generate with
      | error e => simp [cronCatch, hcl, hg]
      | ok bp =>
        cases hd : env.draftSave with
        | error e => simp [cronCatch, hcl, hg, hd]
        | ok i => simp [hcl, hg, hd]

lemma cron_scheduledPublish (env : CronEnv) (now : Nat) (store : List Topic)
    (r : PublishResult) (hr : env.publish = .ok r) :
    (cronWriteBlogs env now store).scheduledPublish = some r := by
  unfold cronWriteBlogs
  cases hcf : env.claimFails with
  | some e => simp [cronCatch, hr]
  | none =>
    cases hcl : (claim_next_approved_topic now store).1 with
    | none => simp [hcl, hr]
    | some topic =>
      cases hg : env.generate with
      | error e => simp [cronCatch, hcl, hg, hr]
      | ok bp =>
        cases hd : env.draftSave with
        | error e => simp [cronCatch, hcl, hg, hd, hr]
        | ok i => simp [hcl, hg, hd, hr]

theorem flow_isolation (env : CronEnv) (now : Nat) (store : List Topic) (m : String)
    (_hthrew : (cronWriteBlogs env now store).errorMsg = some m) :
    (cronWriteBlogs env now store).publishCalled = true
    ∧ (∀ r, env.publish = .ok r → (cronWriteBlogs env now store).scheduledPublish = some r) :=
  ⟨cron_publishCalled env now store, fun r hr => cron_scheduledPublish env now store r hr⟩

/-- Closed instance discharging the hypothesis of `flow_isolation`: with a
generation call that throws, the publish flow still runs and its successful
no-op result appears in the response. -/
theorem flow_isolation_witness :
    (cronWriteBlogs envGenFail 7 [demoTopicA, demoTopicB]).publishCalled = true
    ∧ (∀ r, envGenFail.publish = .ok r →
        (cronWriteBlogs envGenFail 7 [demoTopicA, demoTopicB]).scheduledPublish = some r) :=
  flow_isolation envGenFail 7 [demoTopicA, demoTopicB] "Gemini API failed: XERR" (by decide)

/-- Substring test (used to state that an error text does not occur in a
recorded marker). -/
def containsSub (needle : List Char) : List Char → Bool
  | [] => needle.isEmpty
  | c :: rest => needle.isPrefixOf (c :: rest) || containsSub needle rest

lemma exists_id_of_map (f : Topic → Topic) (hf : ∀ t, (f t).id = t.id) (ts : List Topic)
    (i : Nat) (h : ∃ u ∈ ts, u.id = i) : ∃ u ∈ ts.map f, u.id = i := by
  obtain ⟨u, hu, hi⟩ := h
  exact ⟨f u, List.mem_map_of_mem f hu, by rw [hf, hi]⟩

lemma mem_cron_failure_store (s0 : List Topic) (i : Nat) (u : Topic)
    (hu : u ∈ updateTopicStatus
            (updateTopicProgress (updateTopicProgress s0 i progressResearching) i
              progressGenerating) i TopicStatus.ready)
    (hid : u.id = i) :
    u.status = TopicStatus.ready ∧ u.progress_status = some progressGenerating := by
  unfold updateTopicStatus updateTopicProgress at hu
  obtain ⟨v2, hv2, hv2e⟩ := List.mem_map.mp hu
  obtain ⟨v1, hv1, hv1e⟩ := List.mem_map.mp hv2
  obtain ⟨v0, hv0, hv0e⟩ := List.mem_map.mp hv1
  by_cases h0 : v0.id = i
  · rw [if_pos h0] at hv0e
    have h1 : v1.id = i := by rw [← hv0e]; exact h0
    rw [if_pos h1] at hv1e
    have h2 : v2.id = i := by rw [← hv1e, ← hv0e]; exact h0
    rw [if_pos h2] at hv2e
    rw [← hv2e, ← hv1e]
    exact ⟨rfl, rfl⟩
  · rw [if_neg h0] at hv0e
    subst hv0e
    rw [if_neg h0] at hv1e
    subst hv1e
    rw [if_neg h0] at hv2e
    subst hv2e
    exact absurd hid h0

lemma mem_cron_save_failure_store (s0 : List Topic) (i : Nat) (u : Topic)
    (hu : u ∈ updateTopicStatus
            (updateTopicProgress
              (updateTopicProgress (updateTopicProgress s0 i progressResearching) i
                progressGenerating) i progressSaving) i TopicStatus.ready)
    (hid : u.id = i) :
    u.status = TopicStatus.ready ∧ u.progress_status = some progressSaving := by
  unfold updateTopicStatus updateTopicProgress at hu
  obtain ⟨v3, hv3, hv3e⟩ := List.mem_map.mp hu
  obtain ⟨v2, hv2, hv2e⟩ := List.mem_map.mp hv3
  obtain ⟨v1, hv1, hv1e⟩ := List.mem_map.mp hv2
  obtain ⟨v0, hv0, hv0e⟩ := List.mem_map.mp hv1
  by_cases h0 : v0.id = i
  · rw [if_pos h0] at hv0e
    have h1 : v1.id = i := by rw [← hv0e]; exact h0
    rw [if_pos h1] at hv1e
    have h2 : v2.id = i := by rw [← hv1e, ← hv0e]; exact h0
    rw [if_pos h2] at hv2e
    have h3 : v3.id = i := by rw [← hv2e, ← hv1e, ← hv0e]; exact h0
    rw [if_pos h3] at hv3e
    rw [← hv3e, ← hv2e]
    exact ⟨rfl, rfl⟩
  · rw [if_neg h0] at hv0e
    subst hv0e
    rw [if_neg h0] at hv1e
    subst hv1e
    rw [if_neg h0] at hv2e
    subst hv2e
    rw [if_neg h0] at hv3e
    subst hv3e
    exact absurd hid h0

lemma exists_id_updateTopicProgress (ts : List Topic) (i : Nat) (p : String) (j : Nat)
    (h : ∃ u ∈ ts, u.id = j) : ∃ u ∈ updateTopicProgress ts i p, u.id = j := by
  unfold updateTopicProgress
  refine exists_id_of_map _ (fun v => ?_) _ _ h
  by_cases hv : v.id = i <;> simp [hv]

lemma exists_id_updateTopicStatus (ts : List Topic) (i : Nat) (st : TopicStatus) (j : Nat)
    (h : ∃ u ∈ ts, u.id = j) : ∃ u ∈ updateTopicStatus ts i st, u.id = j := by
  unfold updateTopicStatus
  refine exists_id_of_map _ (fun v => ?_) _ _ h
  by_cases hv : v.id = i <;> simp [hv]

lemma exists_claimed_id (now : Nat) (store : List Topic) (t : Topic)
    (hsel : (claim_next_approved_topic now store).1 = some t) :
    ∃ u ∈ (claim_next_approved_topic now store).2, u.id = t.id := by
  unfold claim_next_approved_topic
  cases hs : selectReady store with
  | none =>
    exfalso
    unfold claim_next_approved_topic at hsel
    rw [hs] at hsel
    cases hsel
  | some s =>
    have hts : t = claimTopicUpdate now s := by
      unfold claim_next_approved_topic at hsel
      rw [hs] at hsel
      simpa using hsel.symm
    refine ⟨claimTopicUpdate now s, ?_, by rw [hts]⟩
    have hsmem : s ∈ store := (selectReady_spec store s hs).1
    have he : (fun u => if u.id = s.id then claimTopicUpdate now u else u) s =
        claimTopicUpdate now s := by simp
    exact he ▸ List.mem_map_of_mem _ hsmem

/-- C3 (amended) — When a topic is claimed and a later step fails
(generation, or the draft upsert after a successful generation), the run
resets the topic's `status` to `ready` (it is not left `in_progress`) and
reports the error in the response; but the failure handler records no
error marker: the topic's `progress_status` after the run is exactly the
pre-failure phase marker (the last progress update issued before the
failing call — "Generating blog content with AI..." for a generation
failure, "Saving draft to database..." for a draft-save failure), with no
error information. -/
theorem claim_reversal_amended (env : CronEnv) (now : Nat) (store : List Topic)
    (t : Topic)
    (hcf : env.claimFails = none)
    (hsel : (claim_next_approved_topic now store).1 = some t) :
    (∀ m, env.generate = .error m →
      (∀ u ∈ (cronWriteBlogs env now store).storeAfter, u.id = t.id →
          u.status = TopicStatus.ready ∧ u.progress_status = some progressGenerating)
      ∧ (∃ u ∈ (cronWriteBlogs env now store).storeAfter, u.id = t.id)
      ∧ (cronWriteBlogs env now store).errorMsg = some ("Gemini API failed: " ++ m)
      ∧ (cronWriteBlogs env now store).success = false)
    ∧ (∀ bp m, env.generate = .ok bp → env.draftSave = .error m →
      (∀ u ∈ (cronWriteBlogs env now store).storeAfter, u.id = t.id →
          u.status = TopicStatus.ready ∧ u.progress_status = some progressSaving)
      ∧ (∃ u ∈ (cronWriteBlogs env now store).storeAfter, u.id = t.id)
      ∧ (cronWriteBlogs env now store).errorMsg =
          some ((match env.existingDraftId with
                 | some _ => "Failed to update draft: "
                 | none => "Failed to create draft: ") ++ m)
      ∧ (cronWriteBlogs env now store).success = false) := by
  constructor
  · intro m hg
    have hrun : cronWriteBlogs env now store =
        cronCatch
          (updateTopicProgress
            (updateTopicProgress (claim_next_approved_topic now store).2 t.id
              progressResearching) t.id progressGenerating)
          (some t.id) ("Gemini API failed: " ++ m) env := by
      unfold cronWriteBlogs
      rw [hcf]
      simp only [hsel, hg]
    rw [hrun]
    refine ⟨?_, ?_, rfl, rfl⟩
    · intro u hu hid
      exact mem_cron_failure_store _ t.id u hu hid
    · show ∃ u ∈ updateTopicStatus _ t.id TopicStatus.ready, u.id = t.id
      exact exists_id_updateTopicStatus _ _ _ _
        (exists_id_updateTopicProgress _ _ _ _
          (exists_id_updateTopicProgress _ _ _ _ (exists_claimed_id now store t hsel)))
  · intro bp m hg hd
    have hrun : cronWriteBlogs env now store =
        cronCatch
          (updateTopicProgress
            (updateTopicProgress
              (updateTopicProgress (claim_next_approved_topic now store).2 t.id
                progressResearching) t.id progressGenerating) t.id progressSaving)
          (some t.id)
          ((match env.existingDraftId with
            | some _ => "Failed to update draft: "
            | none => "Failed to create draft: ") ++ m) env := by
      unfold cronWriteBlogs
      rw [hcf]
      simp only [hsel, hg, hd]
    rw [hrun]
    refine ⟨?_, ?_, rfl, rfl⟩
    · intro u hu hid
      exact mem_cron_save_failure_store _ t.id u hu hid
    · show ∃ u ∈ updateTopicStatus _ t.id TopicStatus.ready, u.id = t.id
      exact exists_id_updateTopicStatus _ _ _ _
        (exists_id_updateTopicProgress _ _ _ _
          (exists_id_updateTopicProgress _ _ _ _
            (exists_id_updateTopicProgress _ _ _ _ (exists_claimed_id now store t hsel))))

/-- Closed instance discharging the hypotheses of `claim_reversal_amended`
on the demo store, for both failure modes: a failing generation call
(`envGenFail`) and a failing draft upsert after a successful generation
(`envSaveFail`). -/
theorem claim_reversal_witness :
    ((∀ u ∈ (cronWriteBlogs envGenFail 7 [demoTopicA, demoTopicB]).storeAfter,
        u.id = (claimTopicUpdate 7 demoTopicA).id →
        u.status = TopicStatus.ready ∧ u.progress_status = some progressGenerating)
      ∧ (∃ u ∈ (cronWriteBlogs envGenFail 7 [demoTopicA, demoTopicB]).storeAfter,
          u.id = (claimTopicUpdate 7 demoTopicA).id)
      ∧ (cronWriteBlogs envGenFail 7 [demoTopicA, demoTopicB]).errorMsg =
          some ("Gemini API failed: " ++ "XERR")
      ∧ (cronWriteBlogs envGenFail 7 [demoTopicA, demoTopicB]).success = false)
    ∧ ((∀ u ∈ (cronWriteBlogs envSaveFail 7 [demoTopicA, demoTopicB]).storeAfter,
        u.id = (claimTopicUpdate 7 demoTopicA).id →
        u.status = TopicStatus.ready ∧ u.progress_status = some progressSaving)
      ∧ (∃ u ∈ (cronWriteBlogs envSaveFail 7 [demoTopicA, demoTopicB]).storeAfter,
          u.id = (claimTopicUpdate 7 demoTopicA).id)
      ∧ (cronWriteBlogs envSaveFail 7 [demoTopicA, demoTopicB]).errorMsg =
          some ((match envSaveFail.existingDraftId with
                 | some _ => "Failed to update draft: "
                 | none => "Failed to create draft: ") ++ "DBERR")
      ∧ (cronWriteBlogs envSaveFail 7 [demoTopicA, demoTopicB]).success = false) :=
  ⟨(claim_reversal_amended envGenFail 7 [demoTopicA, demoTopicB]
      (claimTopicUpdate 7 demoTopicA) rfl (by decide)).1 "XERR" rfl,
   (claim_reversal_amended envSaveFail 7 [demoTopicA, demoTopicB]
      (claimTopicUpdate 7 demoTopicA) rfl (by decide)).2 demoArticle "DBERR" rfl rfl⟩

/-- C3 (counterexample to the claim as stated) — In a concrete failed run
(generation throws `XERR` after the demo topic was claimed), the topic is
reset to `ready`, but the marker left in `progress_status` is exactly the
fixed pre-failure phase text "Generating blog content with AI...", which
does not mention the failure at all (`XERR` does not occur in it): the
failure handler records no descriptive error marker, contradicting the
claim that one is recorded. -/
theorem claim_reversal_counterexample :
    (cronWriteBlogs envGenFail 7 [demoTopicA, demoTopicB]).errorMsg =
      some "Gemini API failed: XERR"
    ∧ findTopic (cronWriteBlogs envGenFail 7 [demoTopicA, demoTopicB]).storeAfter 1 =
        some { id := 1, priority := some 5, created_at := 10, status := TopicStatus.ready,
               progress_status := some progressGenerating, updated_at := 7 }
    ∧ containsSub "XERR".data progressGenerating.data = false := by
  refine ⟨by decide, by decide, by decide⟩

/-- The draft row as updated after a successful commit: `published`, with
`published_at` stamped and the commit URL stored in `github_pr_url`. -/
def publishedDraft (draft : Draft) (now : Nat) (u : String) : Draft :=
  { draft with
      status := DraftStatus.published
      published_at := some now
      github_pr_url := some u }

/-- Run equation: missing required fields mark the draft `failed` without
contacting the commit store. -/
lemma publish_run_missing (draft : Draft) (kws : Option (List String))
    (rest : List (Draft × Option (List String))) (commit : Except String String)
    (now : Nat) (pd td : String)
    (h : (draft.title = "" || draft.body_mdx = "" || draft.slug = "") = true) :
    publishScheduledDrafts (.ok ((draft, kws) :: rest)) commit now pd td =
      { result := .error ("Draft \"" ++ (if draft.title = "" then toString draft.id else draft.title) ++
                          "\" is missing required fields (title, body, or slug)")
        draftAfter := some { draft with status := DraftStatus.failed }
        commitCalled := false } := by
  unfold publishScheduledDrafts
  dsimp only
  rw [if_pos h]

/-- Run equation: with required fields present and a failing commit, the
error propagates and the draft row is returned unmodified. -/
lemma publish_run_commit_error (draft : Draft) (kws : Option (List String))
    (rest : List (Draft × Option (List String))) (m : String)
    (now : Nat) (pd td : String)
    (h : (draft.title = "" || draft.body_mdx = "" || draft.slug = "") = false) :
    publishScheduledDrafts (.ok ((draft, kws) :: rest)) (.error m) now pd td =
      { result := .error m, draftAfter := some draft, commitCalled := true } := by
  unfold publishScheduledDrafts
  dsimp only
  rw [if_neg (by rw [h]; exact Bool.false_ne_true)]

/-- Run equation: with required fields present and a successful commit, the
draft row becomes `published` with the stamps recorded. -/
lemma publish_run_commit_ok (draft : Draft) (kws : Option (List String))
    (rest : List (Draft × Option (List String))) (u : String)
    (now : Nat) (pd td : String)
    (h : (draft.title = "" || draft.body_mdx = "" || draft.slug = "") = false) :
    publishScheduledDrafts (.ok ((draft, kws) :: rest)) (.ok u) now pd td =
      { result := .ok { published := 1, message := "Published: " ++ draft.title,
                        commitUrl := some u, draftId := some draft.id,
                        slug := some draft.slug }
        draftAfter := some (publishedDraft draft now u)
        commitCalled := true } := by
  unfold publishScheduledDrafts
  dsimp only
  rw [if_neg (by rw [h]; exact Bool.false_ne_true)]
  rfl

/-- C2 — Draft publish status transitions are atomic with respect to the
commit.  For a due scheduled draft fetched by the publish step:
a draft row can only end up `published` (with `published_at` stamped and
the commit URL stored) if the commit call succeeded; if the commit call
throws, the row is left exactly as fetched — still `scheduled`, never
`published` or `failed` — and the error propagates; if a required field
(title, body, slug) is absent, the row becomes `failed` and the commit
store is never contacted; and `failed` arises only in that case. -/
theorem publish_commit_atomic (draft : Draft) (kws : Option (List String))
    (rest : List (Draft × Option (List String))) (commit : Except String String)
    (now : Nat) (pd td : String)
    (hsched : draft.status = DraftStatus.scheduled) :
    (∀ d, (publishScheduledDrafts (.ok ((draft, kws) :: rest)) commit now pd td).draftAfter = some d →
        d.status = DraftStatus.published →
        ∃ u, commit = .ok u ∧ d.published_at = some now ∧ d.github_pr_url = some u)
    ∧ (∀ m, commit = .error m →
        (draft.title = "" || draft.body_mdx = "" || draft.slug = "") = false →
        (publishScheduledDrafts (.ok ((draft, kws) :: rest)) commit now pd td).draftAfter = some draft
        ∧ draft.status = DraftStatus.scheduled
        ∧ (publishScheduledDrafts (.ok ((draft, kws) :: rest)) commit now pd td).result = .error m)
    ∧ ((draft.title = "" || draft.body_mdx = "" || draft.slug = "") = true →
        (publishScheduledDrafts (.ok ((draft, kws) :: rest)) commit now pd td).commitCalled = false
        ∧ (publishScheduledDrafts (.ok ((draft, kws) :: rest)) commit now pd td).draftAfter =
            some { draft with status := DraftStatus.failed }
        ∧ ∃ e, (publishScheduledDrafts (.ok ((draft, kws) :: rest)) commit now pd td).result = .error e)
    ∧ (∀ u, commit = .ok u →
        (draft.title = "" || draft.body_mdx = "" || draft.slug = "") = false →
        (publishScheduledDrafts (.ok ((draft, kws) :: rest)) commit now pd td).draftAfter =
          some (publishedDraft draft now u))
    ∧ (∀ d, (publishScheduledDrafts (.ok ((draft, kws) :: rest)) commit now pd td).draftAfter = some d →
        d.status = DraftStatus.failed →
        (draft.title = "" || draft.body_mdx = "" || draft.slug = "") = true
        ∧ (publishScheduledDrafts (.ok ((draft, kws) :: rest)) commit now pd td).commitCalled = false) := by
  by_cases hreq : (draft.title = "" || draft.body_mdx = "" || draft.slug = "") = true
  · rw [publish_run_missing draft kws rest commit now pd td hreq]
    refine ⟨?_, ?_, ?_, ?_, ?_⟩
    · intro d hd hpub
      simp only [Option.some.injEq] at hd
      rw [← hd] at hpub
      simp at hpub
    · intro m _ hfalse
      rw [hreq] at hfalse
      cases hfalse
    · intro _
      exact ⟨rfl, rfl, _, rfl⟩
    · intro u _ hfalse
      rw [hreq] at hfalse
      cases hfalse
    · intro d _ _
      exact ⟨hreq, rfl⟩
  · have hreq' : (draft.title = "" || draft.body_mdx = "" || draft.slug = "") = false := by
      cases hq : (draft.title = "" || draft.body_mdx = "" || draft.slug = "")
      · rfl
      · exact absurd hq hreq
    cases commit with
    | error m =>
      rw [publish_run_commit_error draft kws rest m now pd td hreq']
      refine ⟨?_, ?_, ?_, ?_, ?_⟩
      · intro d hd hpub
        simp only [Option.some.injEq] at hd
        rw [← hd, hsched] at hpub
        cases hpub
      · intro m' hm' _
        cases hm'
        exact ⟨rfl, hsched, rfl⟩
      · intro htrue
        rw [hreq'] at htrue
        cases htrue
      · intro u hu
        cases hu
      · intro d hd hfail
        simp only [Option.some.injEq] at hd
        rw [← hd, hsched] at hfail
        cases hfail
    | ok u =>
      rw [publish_run_commit_ok draft kws rest u now pd td hreq']
      refine ⟨?_, ?_, ?_, ?_, ?_⟩
      · intro d hd _
        simp only [Option.some.injEq] at hd
        exact ⟨u, rfl, by rw [← hd]; rfl, by rw [← hd]; rfl⟩
      · intro m hm
        cases hm
      · intro htrue
        rw [hreq'] at htrue
        cases htrue
      · intro v hv _
        cases hv
        rfl
      · intro d hd hfail
        simp only [Option.some.injEq] at hd
        rw [← hd] at hfail
        simp [publishedDraft] at hfail

/-- A due scheduled demo draft with all required fields present. -/
def demoDraft : Draft :=
  { id := 3, topic_id := some 1, slug := "cedar-fences", title := "Cedar Fences",
    body_mdx := "Intro.", meta_description := "About cedar.", category := "Materials",
    read_time := "5 min read", featured_image := none, sd_layout := none,
    sd_showArticleSummary := none, status := DraftStatus.scheduled,
    scheduled_publish_at := some 5, published_at := none, github_pr_url := none }

/-- Closed instance discharging the hypotheses of `publish_commit_atomic`:
for the demo draft with a failing commit, the draft row is unchanged (still
`scheduled`) and the error propagates. -/
theorem publish_commit_atomic_witness :
    (publishScheduledDrafts (.ok [(demoDraft, none)]) (.error "net down") 9 "January 2026" "2026-01-05").draftAfter
      = some demoDraft
    ∧ demoDraft.status = DraftStatus.scheduled
    ∧ (publishScheduledDrafts (.ok [(demoDraft, none)]) (.error "net down") 9 "January 2026" "2026-01-05").result
      = .error "net down" :=
  (publish_commit_atomic demoDraft none [] (.error "net down") 9 "January 2026" "2026-01-05"
    (by decide)).2.1 "net down" rfl (by decide)

/-! ## C7 — generation-result content guard -/

lemma normalizeParsed_content (p : GeminiParsed) (g topic : String) :
    (normalizeParsed p g topic).content =
      (if ("\x7b".data).isPrefixOf (trimStart (match contentRaw p with
            | JVal.nonstr => g
            | JVal.str s => if (jsTrim s.data).isEmpty then g else s).data) then
        retryPlaceholder (jsOrStr p.title topic)
      else (match contentRaw p with
            | JVal.nonstr => g
            | JVal.str s => if (jsTrim s.data).isEmpty then g else s)) := rfl

lemma retryPlaceholder_data (t : String) :
    (retryPlaceholder t).data = '#' :: ' ' :: (t ++ "\n\nArticle content could not be extracted. Please retry.").data := by
  unfold retryPlaceholder
  rw [String.append_assoc]
  rfl

lemma retryPlaceholder_ne_empty (t : String) : retryPlaceholder t ≠ "" := by
  intro h
  have : (retryPlaceholder t).data = [] := by rw [h]
  rw [retryPlaceholder_data] at this
  cases this

lemma retryPlaceholder_no_brace (t : String) :
    ("\x7b".data).isPrefixOf (trimStart (retryPlaceholder t).data) = false := by
  rw [retryPlaceholder_data]
  rfl

lemma ne_empty_of_trim_not_empty (s : String) (h : (jsTrim s.data).isEmpty = false) :
    s ≠ "" := by
  intro hs
  rw [hs] at h
  cases h

/-- C7 (amended) — In the successful-parse branch of `generateBlogPost`:
a `content` field that (after trimming) is empty or non-string is replaced
by the entire raw response text, not by the retry placeholder; the retry
placeholder is substituted exactly when the resulting content — the
original field, or the raw text that replaced it — begins with `{` after
leading whitespace.  Consequently the returned content never begins with
`{` after leading whitespace and (for a nonempty raw response) is never
the empty string. -/
theorem content_guard_amended (p : GeminiParsed) (g topic : String) (hg : g ≠ "") :
    (normalizeParsed p g topic).content ≠ ""
    ∧ ("\x7b".data).isPrefixOf (trimStart (normalizeParsed p g topic).content.data) = false
    ∧ (∀ s, contentRaw p = JVal.str s → (jsTrim s.data).isEmpty = false →
        ("\x7b".data).isPrefixOf (trimStart s.data) = true →
        (normalizeParsed p g topic).content = retryPlaceholder (jsOrStr p.title topic))
    ∧ ((match contentRaw p with
        | JVal.str s => (jsTrim s.data).isEmpty
        | JVal.nonstr => true) = true →
        ("\x7b".data).isPrefixOf (trimStart g.data) = true →
        (normalizeParsed p g topic).content = retryPlaceholder (jsOrStr p.title topic))
    ∧ ((match contentRaw p with
        | JVal.str s => (jsTrim s.data).isEmpty
        | JVal.nonstr => true) = true →
        ("\x7b".data).isPrefixOf (trimStart g.data) = false →
        (normalizeParsed p g topic).content = g) := by
  rw [normalizeParsed_content]
  cases hc : contentRaw p with
  | nonstr =>
    dsimp only
    by_cases hpre : ("\x7b".data).isPrefixOf (trimStart g.data) = true
    · rw [if_pos hpre]
      refine ⟨retryPlaceholder_ne_empty _, retryPlaceholder_no_brace _, ?_, ?_, ?_⟩
      · intro s hs
        cases hs
      · intro _ _
        rfl
      · intro _ hfalse
        rw [hpre] at hfalse
        cases hfalse
    · have hpre' : ("\x7b".data).isPrefixOf (trimStart g.data) = false :=
        Bool.not_eq_true _ ▸ eq_false_of_ne_true hpre
      rw [if_neg hpre]
      refine ⟨hg, hpre', ?_, ?_, ?_⟩
      · intro s hs
        cases hs
      · intro _ htrue
        rw [hpre'] at htrue
        cases htrue
      · intro _ _
        rfl
  | str s =>
    dsimp only
    by_cases hemp : (jsTrim s.data).isEmpty = true
    · rw [if_pos hemp]
      by_cases hpre : ("\x7b".data).isPrefixOf (trimStart g.data) = true
      · rw [if_pos hpre]
        refine ⟨retryPlaceholder_ne_empty _, retryPlaceholder_no_brace _, ?_, ?_, ?_⟩
        · intro s' hs' he'
          cases hs'
          rw [hemp] at he'
          cases he'
        · intro _ _
          rfl
        · intro _ hfalse
          rw [hpre] at hfalse
          cases hfalse
      · have hpre' : ("\x7b".data).isPrefixOf (trimStart g.data) = false :=
          eq_false_of_ne_true hpre
        rw [if_neg hpre]
        refine ⟨hg, hpre', ?_, ?_, ?_⟩
        · intro s' hs' he'
          cases hs'
          rw [hemp] at he'
          cases he'
        · intro _ htrue
          rw [hpre'] at htrue
          cases htrue
        · intro _ _
          rfl
    · have hemp' : (jsTrim s.data).isEmpty = false := eq_false_of_ne_true hemp
      rw [if_neg hemp]
      by_cases hpre : ("\x7b".data).isPrefixOf (trimStart s.data) = true
      · rw [if_pos hpre]
        refine ⟨retryPlaceholder_ne_empty _, retryPlaceholder_no_brace _, ?_, ?_, ?_⟩
        · intro s' hs' _ _
          cases hs'
          rfl
        · intro hmt
          rw [hemp'] at hmt
          cases hmt
        · intro hmt
          rw [hemp'] at hmt
          cases hmt
      · have hpre' : ("\x7b".data).isPrefixOf (trimStart s.data) = false :=
          eq_false_of_ne_true hpre
        rw [if_neg hpre]
        refine ⟨ne_empty_of_trim_not_empty s hemp', hpre', ?_, ?_, ?_⟩
        · intro s' hs' _ hp'
          cases hs'
          rw [hpre'] at hp'
          cases hp'
        · intro hmt
          rw [hemp'] at hmt
          cases hmt
        · intro hmt
          rw [hemp'] at hmt
          cases hmt

/-- The parsed object of the C7 counterexample: a well-formed parse result
whose `content` field is the empty string. -/
def cgParsed : GeminiParsed :=
  { title := some "T", content := some (JVal.str ""), body := none,
    metaDescription := none, category := none, readTime := none,
    featuredImage := none, imageCaption := none }

/-- The raw (fence-wrapped) response text of the C7 counterexample. -/
def cgRaw : String := "```json\n\x7b\"content\":\"\"\x7d\n```"

/-- C7 (counterexample to the claim as stated) — With a parsed response
whose `content` field is the empty string but whose raw text is wrapped in
a code fence, the returned content is the entire raw response text (fence
included), not the retry placeholder the claim promises. -/
theorem content_guard_counterexample :
    cgParsed.content = some (JVal.str "")
    ∧ (normalizeParsed cgParsed cgRaw "Fences").content = cgRaw
    ∧ cgRaw ≠ retryPlaceholder "T"
    ∧ cgRaw ≠ retryPlaceholder "Fences" := by
  refine ⟨rfl, by decide, by decide, by decide⟩

/-- Closed instance discharging the hypotheses of `content_guard_amended`
at the counterexample input. -/
theorem content_guard_witness :
    (normalizeParsed cgParsed cgRaw "Fences").content ≠ ""
    ∧ ("\x7b".data).isPrefixOf (trimStart (normalizeParsed cgParsed cgRaw "Fences").content.data) = false
    ∧ (∀ s, contentRaw cgParsed = JVal.str s → (jsTrim s.data).isEmpty = false →
        ("\x7b".data).isPrefixOf (trimStart s.data) = true →
        (normalizeParsed cgParsed cgRaw "Fences").content = retryPlaceholder (jsOrStr cgParsed.title "Fences"))
    ∧ ((match contentRaw cgParsed with
        | JVal.str s => (jsTrim s.data).isEmpty
        | JVal.nonstr => true) = true →
        ("\x7b".data).isPrefixOf (trimStart cgRaw.data) = true →
        (normalizeParsed cgParsed cgRaw "Fences").content = retryPlaceholder (jsOrStr cgParsed.title "Fences"))
    ∧ ((match contentRaw cgParsed with
        | JVal.str s => (jsTrim s.data).isEmpty
        | JVal.nonstr => true) = true →
        ("\x7b".data).isPrefixOf (trimStart cgRaw.data) = false →
        (normalizeParsed cgParsed cgRaw "Fences").content = cgRaw) :=
  content_guard_amended cgParsed cgRaw "Fences" (by decide)

/-! ## C8 — endpoint fallback order -/

lemma fallbackFetch_cons_httpErr (m : String) (t : List EndpointOutcome)
    (le : Option String) (a : Nat) :
    fallbackFetch (.httpErr m :: t) le a =
      fallbackFetch t (some ("Gemini API error: " ++ m)) (a + 1) := rfl

lemma fallbackFetch_cons_netErr (m : String) (t : List EndpointOutcome)
    (le : Option String) (a : Nat) :
    fallbackFetch (.netErr m :: t) le a =
      fallbackFetch t (some ("Failed to fetch: " ++ m)) (a + 1) := rfl

lemma fallbackFetch_cons_ok (b : String) (t : List EndpointOutcome)
    (le : Option String) (a : Nat) :
    fallbackFetch (.ok b :: t) le a = (a + 1, .ok b) := rfl

lemma fallbackFetch_first_ok (pre : List EndpointOutcome) (b : String)
    (post : List EndpointOutcome) (le : Option String) (a : Nat)
    (h : ∀ o ∈ pre, outcomeIsOk o = false) :
    fallbackFetch (pre ++ .ok b :: post) le a = (a + pre.length + 1, .ok b) := by
  induction pre generalizing le a with
  | nil => rfl
  | cons o os ih =>
    have ho : outcomeIsOk o = false := h o (List.mem_cons_self _ _)
    have hos : ∀ x ∈ os, outcomeIsOk x = false := fun x hx => h x (List.mem_cons_of_mem _ hx)
    cases o with
    | ok s => cases ho
    | httpErr m =>
      rw [List.cons_append, fallbackFetch_cons_httpErr, ih _ _ hos]
      simp only [List.length_cons, Prod.mk.injEq]
      exact ⟨by omega, trivial⟩
    | netErr m =>
      rw [List.cons_append, fallbackFetch_cons_netErr, ih _ _ hos]
      simp only [List.length_cons, Prod.mk.injEq]
      exact ⟨by omega, trivial⟩

lemma fallbackFetch_all_fail (init : List EndpointOutcome) (o : EndpointOutcome)
    (le : Option String) (a : Nat)
    (h : ∀ x ∈ init, outcomeIsOk x = false) (ho : outcomeIsOk o = false) :
    fallbackFetch (init ++ [o]) le a = (a + init.length + 1, .error (errText o)) := by
  induction init generalizing le a with
  | nil =>
    cases o with
    | ok s => cases ho
    | httpErr m => rfl
    | netErr m => rfl
  | cons x xs ih =>
    have hx : outcomeIsOk x = false := h x (List.mem_cons_self _ _)
    have hxs : ∀ y ∈ xs, outcomeIsOk y = false := fun y hy => h y (List.mem_cons_of_mem _ hy)
    cases x with
    | ok s => cases hx
    | httpErr m =>
      rw [List.cons_append, fallbackFetch_cons_httpErr, ih _ _ hxs]
      simp only [List.length_cons, Prod.mk.injEq]
      exact ⟨by omega, trivial⟩
    | netErr m =>
      rw [List.cons_append, fallbackFetch_cons_netErr, ih _ _ hxs]
      simp only [List.length_cons, Prod.mk.injEq]
      exact ⟨by omega, trivial⟩

/-- C8 — Endpoint fallback order.  `generateBlogPost` walks its endpoint
list in order: if every endpoint before position `i` fails (non-success
HTTP response or thrown network error — both are eligible for fallback)
and endpoint `i` succeeds, the call returns that endpoint's response after
exactly `i + 1` attempts (the result does not depend on the endpoints
after `i`, which are never contacted); if every endpoint fails, the call
throws the last attempt's error after attempting all of them.  In the
concrete 503/503/200 scenario the third endpoint's response is returned
and exactly three attempts are made (the first two once each). -/
theorem endpoint_fallback :
    (∀ (pre : List EndpointOutcome) (b : String) (post : List EndpointOutcome),
        (∀ o ∈ pre, outcomeIsOk o = false) →
        generateBlogPostFetch (pre ++ .ok b :: post) = (pre.length + 1, .ok b))
    ∧ (∀ (init : List EndpointOutcome) (o : EndpointOutcome),
        (∀ x ∈ init, outcomeIsOk x = false) → outcomeIsOk o = false →
        generateBlogPostFetch (init ++ [o]) = (init.length + 1, .error (errText o)))
    ∧ generateBlogPostFetch
        [.httpErr "Service Unavailable", .httpErr "Service Unavailable", .ok "resp"]
        = (3, .ok "resp") := by
  refine ⟨?_, ?_, rfl⟩
  · intro pre b post h
    rw [generateBlogPostFetch, fallbackFetch_first_ok pre b post none 0 h]
    simp only [Prod.mk.injEq]
    exact ⟨by omega, trivial⟩
  · intro init o h ho
    rw [generateBlogPostFetch, fallbackFetch_all_fail init o none 0 h ho]
    simp only [Prod.mk.injEq]
    exact ⟨by omega, trivial⟩

/-- Closed instance discharging the hypotheses of `endpoint_fallback`: two
failing endpoints before a succeeding third one. -/
theorem endpoint_fallback_witness :
    generateBlogPostFetch
      ([.httpErr "Service Unavailable", .netErr "ECONNRESET"] ++ EndpointOutcome.ok "resp" :: [])
      = ([EndpointOutcome.httpErr "Service Unavailable",
          EndpointOutcome.netErr "ECONNRESET"].length + 1, .ok "resp") :=
  endpoint_fallback.1 [.httpErr "Service Unavailable", .netErr "ECONNRESET"] "resp" []
    (by decide)

/-! ## C10 — investigateTopic title bound -/

lemma jsSlice70_length_le (s : String) : (jsSlice70 s).length ≤ 70 := by
  show (s.data.take 70).length ≤ 70
  rw [List.length_take]
  exact min_le_left _ _

lemma investigateFromParsed_title_le (p : IParsed) (idea : String) :
    (investigateFromParsed p idea).suggestedTitle.length ≤ 70 :=
  jsSlice70_length_le _

lemma investigateFallback_title_le (idea : String) :
    (investigateFallback idea).suggestedTitle.length ≤ 70 :=
  jsSlice70_length_le _

/-- C10 — `investigateTopic` returns a `suggestedTitle` of at most 70
characters on every outcome: direct parse, parse of the brace-delimited
substring, and the unparseable-response fallback (which truncates the
user's idea). -/
theorem investigate_title_at_most_70 (parse : List Char → Option IParsed)
    (text idea : String) :
    (investigateTopic parse text idea).suggestedTitle.length ≤ 70 := by
  unfold investigateTopic
  dsimp only
  repeat' split
  all_goals
    first
    | exact investigateFromParsed_title_le _ _
    | exact investigateFallback_title_le _

/-! ## Sanitizer theory: trimming -/

lemma trimRight_cons (c : Char) (l : List Char) :
    trimRight (c :: l) = match trimRight l with
      | [] => if isWsChar c then [] else [c]
      | x :: xs => c :: x :: xs := rfl

lemma trimRight_eq_nil_iff (l : List Char) :
    trimRight l = [] ↔ ∀ c ∈ l, isWsChar c = true := by
  induction l with
  | nil => simp [trimRight]
  | cons c r ih =>
    rw [trimRight_cons]
    cases hr : trimRight r with
    | nil =>
      by_cases hc : isWsChar c = true
      · rw [if_pos hc]
        constructor
        · intro _ d hd
          rcases List.mem_cons.mp hd with rfl | hd'
          · exact hc
          · exact ih.mp hr d hd'
        · intro _
          rfl
      · simp [hc]
    | cons x xs =>
      simp only [List.mem_cons]
      constructor
      · intro h
        cases h
      · intro h
        have : trimRight r = [] := ih.mpr fun d hd => h d (Or.inr hd)
        rw [hr] at this
        cases this

lemma trimRight_append_ws (l w : List Char) (hw : ∀ c ∈ w, isWsChar c = true) :
    trimRight (l ++ w) = trimRight l := by
  induction l with
  | nil =>
    simp only [List.nil_append]
    show trimRight w = trimRight []
    rw [(trimRight_eq_nil_iff w).mpr hw]
    rfl
  | cons c r ih =>
    rw [List.cons_append, trimRight_cons, trimRight_cons, ih]

lemma trimRight_idem (l : List Char) : trimRight (trimRight l) = trimRight l := by
  induction l with
  | nil => rfl
  | cons c r ih =>
    rw [trimRight_cons]
    cases hr : trimRight r with
    | nil =>
      by_cases hc : isWsChar c = true
      · rw [if_pos hc]
        rfl
      · rw [if_neg hc]
        show trimRight [c] = [c]
        rw [trimRight_cons]
        show (if isWsChar c then [] else [c]) = [c]
        rw [if_neg hc]
    | cons x xs =>
      rw [trimRight_cons]
      rw [hr] at ih
      rw [ih]

lemma trimRight_head (l : List Char) (c : Char) (t : List Char)
    (h : trimRight l = c :: t) : ∃ t0, l = c :: t0 := by
  cases l with
  | nil => cases h
  | cons d r =>
    rw [trimRight_cons] at h
    cases hr : trimRight r with
    | nil =>
      rw [hr] at h
      by_cases hd : isWsChar d = true
      · rw [if_pos hd] at h
        cases h
      · rw [if_neg hd] at h
        cases h
        exact ⟨r, rfl⟩
    | cons x xs =>
      rw [hr] at h
      cases h
      exact ⟨r, rfl⟩

lemma trimRight_decomp (l : List Char) :
    ∃ w, l = trimRight l ++ w ∧ ∀ c ∈ w, isWsChar c = true := by
  induction l with
  | nil => exact ⟨[], rfl, by simp⟩
  | cons c r ih =>
    obtain ⟨w, hw, hws⟩ := ih
    rw [trimRight_cons]
    cases hr : trimRight r with
    | nil =>
      by_cases hc : isWsChar c = true
      · rw [if_pos hc]
        refine ⟨c :: r, rfl, ?_⟩
        intro d hd
        rcases List.mem_cons.mp hd with rfl | hd'
        · exact hc
        · exact (trimRight_eq_nil_iff r).mp hr d hd'
      · rw [if_neg hc]
        refine ⟨r, ?_, (trimRight_eq_nil_iff r).mp hr⟩
        rfl
    | cons x xs =>
      rw [hr] at hw
      exact ⟨w, by rw [List.cons_append, ← hw], hws⟩

lemma dropWhile_head_false (p : Char → Bool) (l : List Char) (c : Char) (t : List Char)
    (h : l.dropWhile p = c :: t) : p c = false := by
  induction l with
  | nil => cases h
  | cons d r ih =>
    rw [List.dropWhile_cons] at h
    by_cases hd : p d = true
    · rw [if_pos hd] at h
      exact ih h
    · rw [if_neg hd] at h
      cases h
      exact eq_false_of_ne_true hd

lemma dropWhile_eq_self_of_head (p : Char → Bool) (l : List Char)
    (h : ∀ c t, l = c :: t → p c = false) : l.dropWhile p = l := by
  cases l with
  | nil => rfl
  | cons c r =>
    rw [List.dropWhile_cons, if_neg]
    rw [h c r rfl]
    exact Bool.false_ne_true

lemma jsTrim_head_not_ws (l : List Char) (c : Char) (t : List Char)
    (h : jsTrim l = c :: t) : isWsChar c = false := by
  unfold jsTrim at h
  obtain ⟨t0, ht0⟩ := trimRight_head _ c t h
  exact dropWhile_head_false isWsChar l c t0 ht0

lemma dropWhile_jsTrim (l : List Char) :
    (jsTrim l).dropWhile isWsChar = jsTrim l := by
  apply dropWhile_eq_self_of_head
  intro c t h
  exact jsTrim_head_not_ws l c t h

lemma jsTrim_idem (l : List Char) : jsTrim (jsTrim l) = jsTrim l := by
  show trimRight ((jsTrim l).dropWhile isWsChar) = jsTrim l
  rw [dropWhile_jsTrim]
  exact trimRight_idem _

lemma jsTrim_ws_cons (c : Char) (l : List Char) (hc : isWsChar c = true) :
    jsTrim (c :: l) = jsTrim l := by
  unfold jsTrim
  rw [List.dropWhile_cons, if_pos hc]

lemma jsTrim_append_ws (l w : List Char) (hw : ∀ c ∈ w, isWsChar c = true) :
    jsTrim (l ++ w) = jsTrim l := by
  unfold jsTrim
  rw [List.dropWhile_append]
  by_cases hl : (l.dropWhile isWsChar).isEmpty = true
  · rw [if_pos hl]
    rw [List.dropWhile_eq_nil_iff.mpr hw]
    rw [List.isEmpty_iff.mp hl]
  · rw [if_neg hl]
    exact trimRight_append_ws _ w hw

lemma keepLine_ws_cons (c : Char) (l : List Char) (hc : isWsChar c = true) :
    keepLine (c :: l) = keepLine l := by
  unfold keepLine
  rw [jsTrim_ws_cons c l hc]

lemma keepLine_append_ws (l w : List Char) (hw : ∀ c ∈ w, isWsChar c = true) :
    keepLine (l ++ w) = keepLine l := by
  unfold keepLine
  rw [jsTrim_append_ws l w hw]

/-! ## Sanitizer theory: line structure -/

/-- The first line of a document (up to the first newline). -/
def headline (l : List Char) : List Char := l.takeWhile (· ≠ '\n')

/-- All lines of the document pass the keep filter. -/
def AK (l : List Char) : Prop := ∀ h ∈ splitLines l, keepLine h = true

/-- All lines after the first pass the keep filter. -/
def QK (l : List Char) : Prop := ∀ h ∈ (splitLines l).tail, keepLine h = true

lemma splitLines_cons_nl (r : List Char) : splitLines ('\n' :: r) = [] :: splitLines r := by
  rfl

lemma splitLines_ne_nil (l : List Char) : splitLines l ≠ [] := by
  cases l with
  | nil => simp [splitLines]
  | cons c r =>
    unfold splitLines
    by_cases hc : c = '\n'
    · rw [if_pos hc]
      simp
    · rw [if_neg hc]
      cases h : splitLines r with
      | nil => simp
      | cons a t => simp

lemma headline_cons_nl (r : List Char) : headline ('\n' :: r) = [] := by
  unfold headline
  rw [List.takeWhile_cons, if_neg (by simp)]

lemma headline_cons_ne (c : Char) (r : List Char) (hc : c ≠ '\n') :
    headline (c :: r) = c :: headline r := by
  unfold headline
  rw [List.takeWhile_cons, if_pos (by simp [hc])]

lemma splitLines_head (l : List Char) : ∀ a t, splitLines l = a :: t → a = headline l := by
  induction l with
  | nil =>
    intro a t h
    cases h
    rfl
  | cons c r ih =>
    intro a t h
    by_cases hc : c = '\n'
    · subst hc
      rw [splitLines_cons_nl] at h
      cases h
      rw [headline_cons_nl]
    · unfold splitLines at h
      rw [if_neg hc] at h
      cases hr : splitLines r with
      | nil => exact absurd hr (splitLines_ne_nil r)
      | cons a2 t2 =>
        rw [hr] at h
        injection h with h1 h2
        rw [← h1, headline_cons_ne c r hc, ih a2 t2 hr]

lemma splitLines_decomp (l : List Char) : splitLines l = headline l :: (splitLines l).tail := by
  cases h : splitLines l with
  | nil => exact absurd h (splitLines_ne_nil l)
  | cons a t =>
    rw [splitLines_head l a t h]
    rfl

lemma splitLines_cons_ne (c : Char) (r : List Char) (hc : c ≠ '\n') :
    splitLines (c :: r) = (c :: headline r) :: (splitLines r).tail := by
  cases hr : splitLines r with
  | nil => exact absurd hr (splitLines_ne_nil r)
  | cons a t =>
    have ha : a = headline r := splitLines_head r a t hr
    subst ha
    unfold splitLines
    rw [if_neg hc, hr]
    rfl

lemma splitLines_rep_append (j : Nat) (y : List Char) :
    splitLines (List.replicate j '\n' ++ y) =
      List.replicate j [] ++ splitLines y := by
  induction j with
  | zero => rfl
  | succ n ih =>
    rw [List.replicate_succ, List.replicate_succ, List.cons_append,
      splitLines_cons_nl, ih, List.cons_append]

lemma keepLine_nil : keepLine [] = true := rfl

lemma AK_nil : AK [] := by
  intro h hh
  rcases List.mem_singleton.mp hh with rfl
  exact keepLine_nil

lemma AK_cons_nl (r : List Char) : AK ('\n' :: r) ↔ AK r := by
  unfold AK
  rw [splitLines_cons_nl]
  constructor
  · intro h x hx
    exact h x (List.mem_cons_of_mem _ hx)
  · intro h x hx
    rcases List.mem_cons.mp hx with rfl | hx'
    · exact keepLine_nil
    · exact h x hx'

lemma QK_cons_nl (r : List Char) : QK ('\n' :: r) ↔ AK r := by
  unfold QK AK
  rw [splitLines_cons_nl]
  rfl

lemma AK_cons_ne (c : Char) (r : List Char) (hc : c ≠ '\n') :
    AK (c :: r) ↔ (keepLine (c :: headline r) = true ∧ QK r) := by
  unfold AK QK
  rw [splitLines_cons_ne c r hc]
  constructor
  · intro h
    exact ⟨h _ (List.mem_cons_self _ _), fun x hx => h x (List.mem_cons_of_mem _ hx)⟩
  · rintro ⟨h1, h2⟩ x hx
    rcases List.mem_cons.mp hx with rfl | hx'
    · exact h1
    · exact h2 x hx'

lemma QK_cons_ne (c : Char) (r : List Char) (hc : c ≠ '\n') :
    QK (c :: r) ↔ QK r := by
  unfold QK
  rw [splitLines_cons_ne c r hc]
  rfl

lemma AK_imp_QK (l : List Char) (h : AK l) : QK l :=
  fun x hx => h x (List.mem_of_mem_tail hx)

lemma AK_rep_append (j : Nat) (y : List Char) (hy : AK y) :
    AK (List.replicate j '\n' ++ y) := by
  unfold AK
  rw [splitLines_rep_append]
  intro x hx
  rcases List.mem_append.mp hx with h | h
  · rw [(List.mem_replicate.mp h).2]
    exact keepLine_nil
  · exact hy x h

lemma AK_rep (j : Nat) : AK (List.replicate j '\n') := by
  have := AK_rep_append j [] AK_nil
  rwa [List.append_nil] at this

lemma collapseGo_nil (p : Nat) : collapseGo p [] = List.replicate (min p 2) '\n' := rfl

lemma collapseGo_cons_nl (p : Nat) (r : List Char) :
    collapseGo p ('\n' :: r) = collapseGo (p + 1) r := rfl

lemma collapseGo_cons_ne (p : Nat) (c : Char) (r : List Char) (hc : c ≠ '\n') :
    collapseGo p (c :: r) = List.replicate (min p 2) '\n' ++ c :: collapseGo 0 r := by
  show (if c = '\n' then collapseGo (p + 1) r
        else List.replicate (min p 2) '\n' ++ c :: collapseGo 0 r) = _
  rw [if_neg hc]

lemma headline_collapseGo_pos (z : List Char) : ∀ p, 1 ≤ p →
    headline (collapseGo p z) = [] := by
  induction z with
  | nil =>
    intro p hp
    rw [collapseGo_nil]
    obtain ⟨n, hn⟩ : ∃ n, min p 2 = n + 1 := ⟨min p 2 - 1, by omega⟩
    rw [hn, List.replicate_succ, headline_cons_nl]
  | cons c r ih =>
    intro p hp
    by_cases hc : c = '\n'
    · subst hc
      rw [collapseGo_cons_nl]
      exact ih (p + 1) (by omega)
    · rw [collapseGo_cons_ne p c r hc]
      obtain ⟨n, hn⟩ : ∃ n, min p 2 = n + 1 := ⟨min p 2 - 1, by omega⟩
      rw [hn, List.replicate_succ, List.cons_append, headline_cons_nl]

lemma headline_collapseGo_zero (z : List Char) :
    headline (collapseGo 0 z) = headline z := by
  induction z with
  | nil => rfl
  | cons c r ih =>
    by_cases hc : c = '\n'
    · subst hc
      rw [collapseGo_cons_nl, headline_cons_nl]
      exact headline_collapseGo_pos r 1 le_rfl
    · rw [collapseGo_cons_ne 0 c r hc]
      show headline (c :: collapseGo 0 r) = _
      rw [headline_cons_ne c _ hc, headline_cons_ne c r hc, ih]

lemma collapse_keep (z : List Char) :
    ∀ p, (AK z → AK (collapseGo p z)) ∧ (QK z → QK (collapseGo 0 z)) := by
  induction z with
  | nil =>
    intro p
    constructor
    · intro _
      rw [collapseGo_nil]
      exact AK_rep _
    · intro _
      rw [collapseGo_nil]
      exact AK_imp_QK _ (AK_rep _)
  | cons c r ih =>
    intro p
    by_cases hc : c = '\n'
    · subst hc
      constructor
      · intro hAK
        rw [collapseGo_cons_nl]
        exact (ih (p + 1)).1 ((AK_cons_nl r).mp hAK)
      · intro hQ
        rw [collapseGo_cons_nl]
        exact AK_imp_QK _ ((ih 1).1 ((QK_cons_nl r).mp hQ))
    · constructor
      · intro hAK
        rw [collapseGo_cons_ne p c r hc]
        obtain ⟨hkeep, hQr⟩ := (AK_cons_ne c r hc).mp hAK
        unfold AK
        rw [splitLines_rep_append, splitLines_cons_ne c _ hc]
        intro x hx
        rcases List.mem_append.mp hx with h | h
        · rw [(List.mem_replicate.mp h).2]
          exact keepLine_nil
        · rcases List.mem_cons.mp h with rfl | h'
          · rw [headline_collapseGo_zero]
            exact hkeep
          · exact (ih 0).2 hQr x h'
      · intro hQ
        rw [collapseGo_cons_ne 0 c r hc]
        show QK (c :: collapseGo 0 r)
        exact (QK_cons_ne c _ hc).mpr ((ih 0).2 ((QK_cons_ne c r hc).mp hQ))

lemma AK_collapseNl (z : List Char) (h : AK z) : AK (collapseNl z) :=
  (collapse_keep z 0).1 h

lemma QK_nil : QK [] := by
  intro h hh
  cases hh

lemma headline_eq_self (a : List Char) (ha : '\n' ∉ a) : headline a = a := by
  induction a with
  | nil => rfl
  | cons c a2 ih =>
    have hc : c ≠ '\n' := fun h => ha (h ▸ List.mem_cons_self _ _)
    rw [headline_cons_ne c a2 hc, ih fun h => ha (List.mem_cons_of_mem _ h)]

lemma headline_append_nlfree (a w : List Char) (ha : '\n' ∉ a) :
    headline (a ++ w) = a ++ headline w := by
  induction a with
  | nil => rfl
  | cons c a2 ih =>
    have hc : c ≠ '\n' := fun h => ha (h ▸ List.mem_cons_self _ _)
    rw [List.cons_append, headline_cons_ne c _ hc,
      ih fun h => ha (List.mem_cons_of_mem _ h), List.cons_append]

lemma headline_append_of_mem (a w : List Char) (ha : '\n' ∈ a) :
    headline (a ++ w) = headline a := by
  induction a with
  | nil => cases ha
  | cons c a2 ih =>
    by_cases hc : c = '\n'
    · subst hc
      rw [List.cons_append, headline_cons_nl, headline_cons_nl]
    · have ha2 : '\n' ∈ a2 := by
        rcases List.mem_cons.mp ha with h | h
        · exact absurd h.symm hc
        · exact h
      rw [List.cons_append, headline_cons_ne c _ hc, headline_cons_ne c a2 hc, ih ha2]

lemma headline_all_ws (w : List Char) (hw : ∀ c ∈ w, isWsChar c = true) :
    ∀ c ∈ headline w, isWsChar c = true := by
  intro c hc
  exact hw c (List.Sublist.mem hc (List.takeWhile_sublist _))

lemma AK_dropWhileWs (z : List Char) (h : AK z) : AK (z.dropWhile isWsChar) := by
  induction z with
  | nil => exact h
  | cons c r ih =>
    rw [List.dropWhile_cons]
    by_cases hw : isWsChar c = true
    · rw [if_pos hw]
      apply ih
      by_cases hc : c = '\n'
      · exact (AK_cons_nl r).mp (hc ▸ h)
      · obtain ⟨hkeep, hQ⟩ := (AK_cons_ne c r hc).mp h
        intro x hx
        rw [splitLines_decomp r] at hx
        rcases List.mem_cons.mp hx with rfl | hx'
        · rw [← keepLine_ws_cons c _ hw]
          exact hkeep
        · exact hQ x hx'
    · rw [if_neg hw]
      exact h

lemma AK_QK_append_ws (w : List Char) (hw : ∀ c ∈ w, isWsChar c = true) :
    ∀ a, (AK (a ++ w) → AK a) ∧ (QK (a ++ w) → QK a) := by
  intro a
  induction a with
  | nil => exact ⟨fun _ => AK_nil, fun _ => QK_nil⟩
  | cons c a2 ih =>
    by_cases hc : c = '\n'
    · subst hc
      constructor
      · intro h
        exact (AK_cons_nl a2).mpr (ih.1 ((AK_cons_nl _).mp h))
      · intro h
        exact (QK_cons_nl a2).mpr (ih.1 ((QK_cons_nl _).mp h))
    · constructor
      · intro h
        obtain ⟨hkeep, hQ⟩ := (AK_cons_ne c _ hc).mp h
        simp only [List.append_eq] at hkeep hQ
        refine (AK_cons_ne c a2 hc).mpr ⟨?_, ih.2 hQ⟩
        by_cases hnl : '\n' ∈ a2
        · rwa [headline_append_of_mem a2 w hnl] at hkeep
        · rw [headline_append_nlfree a2 w hnl] at hkeep
          rw [headline_eq_self a2 hnl]
          rw [← List.cons_append] at hkeep
          rwa [keepLine_append_ws _ _ (headline_all_ws w hw)] at hkeep
      · intro h
        exact (QK_cons_ne c a2 hc).mpr (ih.2 ((QK_cons_ne c _ hc).mp h))

lemma AK_trimRight (z : List Char) (h : AK z) : AK (trimRight z) := by
  obtain ⟨w, hw, hws⟩ := trimRight_decomp z
  exact (AK_QK_append_ws w hws (trimRight z)).1 (hw ▸ h)

lemma AK_jsTrim (z : List Char) (h : AK z) : AK (jsTrim z) :=
  AK_trimRight _ (AK_dropWhileWs z h)

lemma nlfree_splitLines (z : List Char) : ∀ h ∈ splitLines z, '\n' ∉ h := by
  induction z with
  | nil =>
    intro h hh
    rcases List.mem_singleton.mp hh with rfl
    simp
  | cons c r ih =>
    intro h hh
    by_cases hc : c = '\n'
    · subst hc
      rw [splitLines_cons_nl] at hh
      rcases List.mem_cons.mp hh with rfl | hh'
      · simp
      · exact ih h hh'
    · rw [splitLines_cons_ne c r hc] at hh
      rcases List.mem_cons.mp hh with rfl | hh'
      · intro hmem
        rcases List.mem_cons.mp hmem with h1 | h1
        · exact hc h1.symm
        · have := List.mem_takeWhile_imp h1
          simp at this
      · exact ih h (List.mem_of_mem_tail hh')

lemma joinLines_cons₂ (l : List Char) (ls : List (List Char)) (h : ls ≠ []) :
    joinLines (l :: ls) = l ++ '\n' :: joinLines ls := by
  cases ls with
  | nil => exact absurd rfl h
  | cons x xs => rfl

lemma joinLines_splitLines (z : List Char) : joinLines (splitLines z) = z := by
  induction z with
  | nil => rfl
  | cons c r ih =>
    by_cases hc : c = '\n'
    · subst hc
      rw [splitLines_cons_nl, joinLines_cons₂ _ _ (splitLines_ne_nil r), ih]
      rfl
    · rw [splitLines_cons_ne c r hc]
      cases ht : (splitLines r).tail with
      | nil =>
        have hsp : splitLines r = [headline r] := by
          rw [splitLines_decomp r, ht]
        rw [hsp] at ih
        show c :: headline r = c :: r
        rw [show joinLines [headline r] = headline r from rfl] at ih
        rw [ih]
      | cons x xs =>
        have hsp : splitLines r = headline r :: x :: xs := by
          rw [splitLines_decomp r, ht]
        rw [hsp, joinLines_cons₂ _ _ (by simp)] at ih
        rw [joinLines_cons₂ _ _ (by simp), List.cons_append, ih]

lemma splitLines_nlfree_single (l : List Char) (hl : '\n' ∉ l) : splitLines l = [l] := by
  induction l with
  | nil => rfl
  | cons c r ih =>
    have hc : c ≠ '\n' := fun h => hl (h ▸ List.mem_cons_self _ _)
    have hr : '\n' ∉ r := fun h => hl (List.mem_cons_of_mem _ h)
    rw [splitLines_cons_ne c r hc, ih hr, headline_eq_self r hr]
    rfl

lemma splitLines_append_nl (l x : List Char) (hl : '\n' ∉ l) :
    splitLines (l ++ '\n' :: x) = l :: splitLines x := by
  induction l with
  | nil => exact splitLines_cons_nl x
  | cons c l2 ih =>
    have hc : c ≠ '\n' := fun h => hl (h ▸ List.mem_cons_self _ _)
    have hl2 : '\n' ∉ l2 := fun h => hl (List.mem_cons_of_mem _ h)
    rw [List.cons_append, splitLines_cons_ne c _ hc, ih hl2,
      headline_append_nlfree l2 _ hl2, headline_cons_nl, List.append_nil]
    rfl

lemma splitLines_joinLines (ls : List (List Char)) (hnl : ∀ l ∈ ls, '\n' ∉ l)
    (hne : ls ≠ []) : splitLines (joinLines ls) = ls := by
  induction ls with
  | nil => exact absurd rfl hne
  | cons l ls2 ih =>
    cases hls2 : ls2 with
    | nil =>
      exact splitLines_nlfree_single l (hnl l (List.mem_cons_self _ _))
    | cons y ys =>
      rw [← hls2, joinLines_cons₂ l ls2 (by rw [hls2]; simp),
        splitLines_append_nl l _ (hnl l (List.mem_cons_self _ _)),
        ih (fun a ha => hnl a (List.mem_cons_of_mem _ ha)) (by rw [hls2]; simp)]

lemma AK_filterStep (s : List Char) : AK (filterStep s) := by
  unfold filterStep
  cases hls : (splitLines s).filter keepLine with
  | nil => exact AK_nil
  | cons x xs =>
    rw [← hls]
    intro h hh
    rw [splitLines_joinLines _ ?_ (by rw [hls]; simp)] at hh
    · exact (List.mem_filter.mp hh).2
    · intro a ha
      exact nlfree_splitLines s a (List.mem_filter.mp ha).1

lemma filterStep_eq_self (t : List Char) (h : AK t) : filterStep t = t := by
  unfold filterStep
  rw [List.filter_eq_self.mpr h, joinLines_splitLines]

/-- Whether the text contains three consecutive newlines (the pattern
`\n{3,}` matches somewhere). -/
def has3 : List Char → Bool
  | a :: b :: c :: r => (a = '\n' && b = '\n' && c = '\n') || has3 (b :: c :: r)
  | _ => false

lemma has3_cons₃ (a b c : Char) (r : List Char) :
    has3 (a :: b :: c :: r) = ((a = '\n' && b = '\n' && c = '\n') || has3 (b :: c :: r)) := rfl

lemma has3_tail_false (c : Char) (r : List Char) (h : has3 (c :: r) = false) :
    has3 r = false := by
  cases r with
  | nil => rfl
  | cons b r2 =>
    cases r2 with
    | nil => rfl
    | cons d r3 =>
      rw [has3_cons₃] at h
      exact (Bool.or_eq_false_iff.mp h).2

lemma has3_suffix_false (x y : List Char) (h : has3 (x ++ y) = false) :
    has3 y = false := by
  induction x with
  | nil => exact h
  | cons c x2 ih =>
    rw [List.cons_append] at h
    exact ih (has3_tail_false _ _ h)

lemma has3_append_right (p s : List Char) (h : has3 p = true) :
    has3 (p ++ s) = true := by
  induction p with
  | nil => cases h
  | cons a q ih =>
    cases q with
    | nil => cases h
    | cons b q2 =>
      cases q2 with
      | nil => cases h
      | cons c r =>
        rw [has3_cons₃] at h
        rw [List.cons_append, List.cons_append, List.cons_append, has3_cons₃]
        rcases Bool.or_eq_true_iff.mp h with hw | hr
        · rw [hw]
          rfl
        · have := ih hr
          rw [List.cons_append, List.cons_append] at this
          rw [this]
          simp

lemma has3_cons_ne (c : Char) (x : List Char) (hc : c ≠ '\n') :
    has3 (c :: x) = has3 x := by
  cases x with
  | nil => rfl
  | cons b x2 =>
    cases x2 with
    | nil => rfl
    | cons d r =>
      rw [has3_cons₃]
      simp [hc]

lemma has3_nl_cons_ne (c : Char) (x : List Char) (hc : c ≠ '\n') :
    has3 ('\n' :: c :: x) = has3 (c :: x) := by
  cases x with
  | nil => rfl
  | cons b x2 =>
    rw [has3_cons₃]
    simp [hc]

lemma has3_collapseGo (z : List Char) : ∀ p, has3 (collapseGo p z) = false := by
  induction z with
  | nil =>
    intro p
    rw [collapseGo_nil]
    have h2 : min p 2 = 0 ∨ min p 2 = 1 ∨ min p 2 = 2 := by omega
    rcases h2 with h | h | h <;> rw [h] <;> rfl
  | cons c r ih =>
    intro p
    by_cases hc : c = '\n'
    · subst hc
      rw [collapseGo_cons_nl]
      exact ih (p + 1)
    · rw [collapseGo_cons_ne p c r hc]
      have h2 : min p 2 = 0 ∨ min p 2 = 1 ∨ min p 2 = 2 := by omega
      rcases h2 with h | h | h <;> rw [h]
      · show has3 (c :: collapseGo 0 r) = false
        rw [has3_cons_ne c _ hc]
        exact ih 0
      · show has3 ('\n' :: c :: collapseGo 0 r) = false
        rw [has3_nl_cons_ne c _ hc, has3_cons_ne c _ hc]
        exact ih 0
      · show has3 ('\n' :: '\n' :: c :: collapseGo 0 r) = false
        rw [has3_cons₃]
        simp only [hc]
        rw [has3_nl_cons_ne c _ hc, has3_cons_ne c _ hc]
        simp [ih 0, hc]

lemma collapse_eq_self_aux (z : List Char) : ∀ p, p ≤ 2 →
    has3 (List.replicate p '\n' ++ z) = false →
    collapseGo p z = List.replicate p '\n' ++ z := by
  induction z with
  | nil =>
    intro p hp _
    rw [collapseGo_nil, List.append_nil]
    have : min p 2 = p := by omega
    rw [this]
  | cons c r ih =>
    intro p hp h
    by_cases hc : c = '\n'
    · subst hc
      rw [collapseGo_cons_nl]
      have hrep : List.replicate p '\n' ++ '\n' :: r = List.replicate (p + 1) '\n' ++ r := by
        rw [List.replicate_succ', List.append_assoc]
        rfl
      have hp1 : p + 1 ≤ 2 := by
        by_contra hcon
        have hp2 : p = 2 := by omega
        subst hp2
        rw [show List.replicate 2 '\n' ++ '\n' :: r = '\n' :: '\n' :: '\n' :: r from rfl] at h
        rw [has3_cons₃] at h
        simp at h
      rw [hrep]
      rw [hrep] at h
      exact ih (p + 1) hp1 h
    · rw [collapseGo_cons_ne p c r hc]
      have hmin : min p 2 = p := by omega
      rw [hmin]
      have hr : has3 r = false := by
        have : List.replicate p '\n' ++ c :: r = (List.replicate p '\n' ++ [c]) ++ r := by
          rw [List.append_assoc]
          rfl
        rw [this] at h
        exact has3_suffix_false _ _ h
      rw [ih 0 (by omega) (by simpa using hr)]
      rfl

lemma collapseNl_eq_self (z : List Char) (h : has3 z = false) : collapseNl z = z := by
  have := collapse_eq_self_aux z 0 (by omega) (by simpa using h)
  simpa using this

lemma has3_trimRight_false (z : List Char) (h : has3 z = false) :
    has3 (trimRight z) = false := by
  obtain ⟨w, hw, -⟩ := trimRight_decomp z
  cases hq : has3 (trimRight z) with
  | false => rfl
  | true =>
    have := has3_append_right _ w hq
    rw [← hw] at this
    rw [this] at h
    cases h

lemma has3_jsTrim_false (z : List Char) (h : has3 z = false) :
    has3 (jsTrim z) = false := by
  unfold jsTrim
  apply has3_trimRight_false
  obtain ⟨x, hx⟩ := List.dropWhile_suffix (l := z) isWsChar
  rw [← hx] at h
  exact has3_suffix_false _ _ h

lemma normCore_idem (z : List Char) : normCore (normCore z) = normCore z := by
  have hAKt : AK (normCore z) := AK_jsTrim _ (AK_collapseNl _ (AK_filterStep z))
  have h3 : has3 (normCore z) = false :=
    has3_jsTrim_false _ (has3_collapseGo (filterStep z) 0)
  show jsTrim (collapseNl (filterStep (normCore z))) = normCore z
  rw [filterStep_eq_self _ hAKt, collapseNl_eq_self _ h3]
  exact jsTrim_idem _

lemma stripH1_no_hash (l : List Char) (ht : l.dropWhile isWsChar = l)
    (hh : l.head? ≠ some '#') : stripH1 l = l := by
  unfold stripH1
  rw [ht]
  cases l with
  | nil => rfl
  | cons c r =>
    split
    · next r2 heq =>
      injection heq with he1 he2
      refine absurd ?_ hh
      rw [List.head?_cons, he1]
    · rfl

lemma extract_none_of_shape (l : List Char) (ht : jsTrim l = l)
    (h1 : ("```".data).isPrefixOf l = false)
    (h2 : ("\x7b\"".data).isPrefixOf l = false) :
    extractContentFromJsonBlock l = none := by
  simp [extractContentFromJsonBlock, ht, h1, h2]

lemma sanitize_run (l : List Char) (h : l.isEmpty = false) :
    sanitizeMdxBody l = normCore (stripH1 (unwrapJson l)) := by
  unfold sanitizeMdxBody
  rw [if_neg (by rw [h]; exact Bool.false_ne_true)]

lemma jsTrim_sanitize (s : List Char) : jsTrim (sanitizeMdxBody s) = sanitizeMdxBody s := by
  unfold sanitizeMdxBody
  by_cases hs : s.isEmpty = true
  · rw [if_pos hs, List.isEmpty_iff.mp hs]
    rfl
  · rw [if_neg hs]
    exact jsTrim_idem _

lemma dropWhileWs_sanitize (s : List Char) :
    (sanitizeMdxBody s).dropWhile isWsChar = sanitizeMdxBody s := by
  unfold sanitizeMdxBody
  by_cases hs : s.isEmpty = true
  · rw [if_pos hs, List.isEmpty_iff.mp hs]
    rfl
  · rw [if_neg hs]
    exact dropWhile_jsTrim _

/-- C5 (amended) — `sanitizeMdxBody` is idempotent on every input whose
sanitized output does not itself start with a code fence, a `{"` JSON
envelope, or a `#` heading marker: for such inputs a second pass changes
nothing, because its JSON-unwrap and H1-strip stages are no-ops on the
output and its filter / blank-line-collapse / trim core is idempotent.
(Full idempotence fails: re-sanitising can strip a further leading H1 line
or unwrap a newly exposed envelope — see the counterexample.) -/
theorem sanitize_idempotent_amended (s : List Char)
    (h1 : ("```".data).isPrefixOf (sanitizeMdxBody s) = false)
    (h2 : ("\x7b\"".data).isPrefixOf (sanitizeMdxBody s) = false)
    (h3 : (sanitizeMdxBody s).head? ≠ some '#') :
    sanitizeMdxBody (sanitizeMdxBody s) = sanitizeMdxBody s := by
  by_cases hs : s.isEmpty = true
  · have h0 : sanitizeMdxBody s = s := by
      unfold sanitizeMdxBody
      rw [if_pos hs]
    rw [h0, List.isEmpty_iff.mp hs]
    rfl
  · have hs' : s.isEmpty = false := eq_false_of_ne_true hs
    by_cases hte : (sanitizeMdxBody s).isEmpty = true
    · rw [List.isEmpty_iff.mp hte]
      rfl
    · have hte' : (sanitizeMdxBody s).isEmpty = false := eq_false_of_ne_true hte
      rw [sanitize_run (sanitizeMdxBody s) hte']
      have hunwrap : unwrapJson (sanitizeMdxBody s) = sanitizeMdxBody s := by
        unfold unwrapJson
        rw [extract_none_of_shape _ (jsTrim_sanitize s) h1 h2]
      have hstrip : stripH1 (sanitizeMdxBody s) = sanitizeMdxBody s :=
        stripH1_no_hash _ (dropWhileWs_sanitize s) h3
      rw [hunwrap, hstrip]
      rw [sanitize_run s hs']
      exact normCore_idem _

/-- C5 (counterexample to the claim as stated) — The sanitizer is not
idempotent: on `"# A\n# B\nrest"` the first pass strips the leading H1
line `# A`, exposing `# B` at the start, and a second pass strips that one
too, so `sanitize (sanitize s) ≠ sanitize s`. -/
theorem sanitize_not_idempotent :
    sanitizeMdxBodyS (sanitizeMdxBodyS "# A\n# B\nrest") ≠ sanitizeMdxBodyS "# A\n# B\nrest"
    ∧ sanitizeMdxBodyS "# A\n# B\nrest" = "# B\nrest"
    ∧ sanitizeMdxBodyS "# B\nrest" = "rest" := by
  refine ⟨by decide, by decide, by decide⟩

/-- Closed instance discharging the hypotheses of
`sanitize_idempotent_amended` on a concrete document. -/
theorem sanitize_idempotent_witness :
    sanitizeMdxBody (sanitizeMdxBody "hello\n\n\n\nworld".data) =
      sanitizeMdxBody "hello\n\n\n\nworld".data :=
  sanitize_idempotent_amended "hello\n\n\n\nworld".data (by decide) (by decide) (by decide)

lemma collapseGo_zero_nlfree_append (a x : List Char) (ha : '\n' ∉ a) :
    collapseGo 0 (a ++ x) = a ++ collapseGo 0 x := by
  induction a with
  | nil => rfl
  | cons c a2 ih =>
    have hc : c ≠ '\n' := fun h => ha (h ▸ List.mem_cons_self _ _)
    rw [List.cons_append, collapseGo_cons_ne 0 c _ hc,
      ih fun h => ha (List.mem_cons_of_mem _ h)]
    rfl

lemma collapseGo_rep (k : Nat) : ∀ (p : Nat) (b : List Char),
    collapseGo p (List.replicate k '\n' ++ b) = collapseGo (p + k) b := by
  induction k with
  | zero =>
    intro p b
    rfl
  | succ n ih =>
    intro p b
    rw [List.replicate_succ, List.cons_append, collapseGo_cons_nl, ih (p + 1) b]
    have : p + 1 + n = p + (n + 1) := by omega
    rw [this]

lemma collapseGo_head_ne (p : Nat) (b : List Char) (hb : b.head? ≠ some '\n') :
    collapseGo p b = List.replicate (min p 2) '\n' ++ collapseGo 0 b := by
  cases b with
  | nil =>
    rw [collapseGo_nil, collapseGo_nil]
    simp
  | cons c r =>
    have hc : c ≠ '\n' := fun h => hb (by rw [h]; rfl)
    rw [collapseGo_cons_ne p c r hc, collapseGo_cons_ne 0 c r hc]
    simp

/-- C9 (amended) — The whitespace-normalisation step of `sanitizeMdxBody`
collapses every maximal run of three or more consecutive newline
characters (i.e. two or more consecutive blank lines) to exactly two
newlines (one blank line), leaves runs of at most two newlines (zero or
one blank line) unchanged, and the sanitizer trims leading and trailing
whitespace of the whole document. -/
theorem whitespace_normalization_amended :
    (∀ (a b : List Char) (k : Nat), '\n' ∉ a → b.head? ≠ some '\n' →
        collapseNl (a ++ List.replicate k '\n' ++ b) =
          a ++ List.replicate (min k 2) '\n' ++ collapseNl b)
    ∧ (∀ s, jsTrim (sanitizeMdxBody s) = sanitizeMdxBody s) := by
  constructor
  · intro a b k ha hb
    rw [List.append_assoc]
    unfold collapseNl
    rw [collapseGo_zero_nlfree_append a _ ha, collapseGo_rep k 0 b]
    rw [show (0 + k) = k from by omega]
    rw [collapseGo_head_ne k b hb, List.append_assoc]
  · exact jsTrim_sanitize

/-- C9 (counterexample to the claim as stated) — `"a\n\n\nb"` contains a
run of exactly two consecutive blank lines (three newlines), which the
claim says is left unchanged by this step; the code collapses it to one
blank line. -/
theorem whitespace_normalization_counterexample :
    sanitizeMdxBodyS "a\n\n\nb" = "a\n\nb"
    ∧ collapseNl "a\n\n\nb".data = "a\n\nb".data
    ∧ "a\n\n\nb".data ≠ "a\n\nb".data := by
  refine ⟨by decide, by decide, by decide⟩

/-- Closed instance discharging the hypotheses of
`whitespace_normalization_amended` on a concrete run of four newlines. -/
theorem whitespace_normalization_witness :
    collapseNl ("ab".data ++ List.replicate 4 '\n' ++ "cd".data) =
      "ab".data ++ List.replicate (min 4 2) '\n' ++ collapseNl "cd".data :=
  whitespace_normalization_amended.1 "ab".data "cd".data 4 (by decide) (by decide)

lemma extract_some_ne_nil (l e : List Char)
    (h : extractContentFromJsonBlock l = some e) : e ≠ [] := by
  unfold extractContentFromJsonBlock at h
  dsimp only at h
  split at h
  · cases h
  · split at h
    · cases h
    · split at h
      · cases h
      · next hne =>
        injection h with he
        intro hnil
        rw [hnil] at he
        rw [he] at hne
        exact hne rfl

/-- C6 — Sanitizer JSON-unwrap on the concrete vector: the ```` ```json ````
fence wrapping `{"content":"# Title\n\nBody text"}` sanitises to exactly
`"Body text"` (no fence or brace syntax, no leading `# Title` line).
Moreover the unwrap stage fails open: when no `content` field is
extractable the input passes through unchanged, extraction never produces
the empty string, and a brace-shaped input without a `content` field
survives sanitisation unchanged rather than becoming empty. -/
theorem sanitize_json_unwrap :
    sanitizeMdxBodyS "```json\n\x7b\"content\":\"# Title\\n\\nBody text\"\x7d\n```" = "Body text"
    ∧ (∀ l, extractContentFromJsonBlock l = none → unwrapJson l = l)
    ∧ (∀ l e, extractContentFromJsonBlock l = some e → e ≠ [])
    ∧ sanitizeMdxBodyS "\x7b\"foo\":1\x7d" = "\x7b\"foo\":1\x7d" := by
  refine ⟨by decide, ?_, extract_some_ne_nil, by decide⟩
  intro l h
  unfold unwrapJson
  rw [h]

/-- Closed instance discharging the hypotheses of `sanitize_json_unwrap`:
a plain-text input is not envelope-shaped, so the unwrap stage returns it
unchanged; and the extraction on the C6 vector is nonempty. -/
theorem sanitize_json_unwrap_witness :
    unwrapJson "plain text".data = "plain text".data
    ∧ ("# Title\n\nBody text".data ≠ ([] : List Char)) :=
  ⟨sanitize_json_unwrap.2.1 "plain text".data (by decide),
   sanitize_json_unwrap.2.2.1
     "```json\n\x7b\"content\":\"# Title\\n\\nBody text\"\x7d\n```".data
     "# Title\n\nBody text".data (by decide)⟩
